import Mathlib

/-! Workspace-mounts controller: reconcile driver and event routing.

A shallow embedding of `pkg/reconciler/tenancy/workspacemounts/workspacemounts_controller.go`.

The controller talks to collaborators that live outside the file: the rate-limited work
queue, the workspace lister and indexer, the two reconcilers, the patch committer and the
key functions.  Each of them is a field of `Controller`: a function of an explicit world
state `W`, returning its result and the next world.  Every call the controller makes is
also recorded, in program order, as an `Event`; the theorems speak about these call
sequences and about the values the functions return.

Go's `defer c.queue.Done(key)` runs when `processNextWorkItem` returns, hence after the
`AddRateLimited` / `Add` / `Forget` call of the branch taken; the embedding places the
`Done` call there.
-/

/-! ## Apply configuration of an object reference

The builder of `sdk/client/applyconfiguration/tenancy/v1alpha1/objectreference.go`. The
methods have a pointer receiver, mutate the struct behind it and return the same pointer;
the struct behind each pointer is kept in an explicit heap. -/

namespace V1alpha1

/-- The struct `ObjectReferenceApplyConfiguration`; a `*string` field is an optional
string, `none` when the pointer is nil. -/
structure ObjectReferenceApplyConfiguration where
  APIVersion : Option String
  Kind : Option String
  Name : Option String
  Namespace : Option String
deriving DecidableEq, Repr

/-- A pointer `*ObjectReferenceApplyConfiguration`: an address of the heap. -/
abbrev Ptr := Nat

/-- The heap: the configuration stored behind every pointer. -/
abbrev Heap := Ptr → ObjectReferenceApplyConfiguration

/-- The constructor `ObjectReference()`: a pointer to a newly allocated zero struct. The
address the allocator hands out is an argument. -/
def ObjectReference (h : Heap) (fresh : Ptr) : Ptr × Heap :=
  (fresh, Function.update h fresh
    { APIVersion := none, Kind := none, Name := none, Namespace := none })

/-- The method `WithAPIVersion`: `b.APIVersion = &value; return b`. -/
def WithAPIVersion (h : Heap) (b : Ptr) (value : String) : Ptr × Heap :=
  (b, Function.update h b { h b with APIVersion := some value })

/-- The method `WithKind`: `b.Kind = &value; return b`. -/
def WithKind (h : Heap) (b : Ptr) (value : String) : Ptr × Heap :=
  (b, Function.update h b { h b with Kind := some value })

/-- The method `WithName`: `b.Name = &value; return b`. -/
def WithName (h : Heap) (b : Ptr) (value : String) : Ptr × Heap :=
  (b, Function.update h b { h b with Name := some value })

/-- The method `WithNamespace`: `b.Namespace = &value; return b`. -/
def WithNamespace (h : Heap) (b : Ptr) (value : String) : Ptr × Heap :=
  (b, Function.update h b { h b with Namespace := some value })

/-- A heap for evaluating the builder: every address holds a reference to a cowboy. -/
def demoHeap : Heap := fun _ =>
  { APIVersion := some "wildwest.dev/v1alpha1", Kind := some "Cowboy", Name := some "joe",
    Namespace := none }

end V1alpha1

namespace WorkspaceMounts

/-- Modelled from the spec: the reconcile outcome returned by both reconcilers, a tagged
result that is either `Continue` or `StopAndRequeue`; its Go declaration
(`reconcileStatus`) is outside the given sources. -/
inductive reconcileStatus where
  | reconcileStatusContinue
  | reconcileStatusStopAndRequeue
deriving DecidableEq, Repr

/-- The primary object `tenancyv1alpha1.Workspace`, reduced to the three parts the
controller touches. The metadata, spec and status types are parameters. -/
structure Workspace (M S T : Type) where
  ObjectMeta : M
  Spec : S
  Status : T
deriving DecidableEq, Repr

/-- The value `committer.Resource[*WorkspaceSpec, *WorkspaceStatus]` handed to `commit`. -/
structure workspaceResource (M S T : Type) where
  ObjectMeta : M
  Spec : S
  Status : T
deriving DecidableEq, Repr

/-- The method `Workspace.DeepCopy`: a copy equal in value that shares no memory with the original. -/
def Workspace.DeepCopy {M S T : Type} (ws : Workspace M S T) : Workspace M S T :=
  { ObjectMeta := ws.ObjectMeta, Spec := ws.Spec, Status := ws.Status }

/-- What an informer hands to an event handler (`obj interface{}`): a typed workspace, an
unstructured secondary object, or a `cache.DeletedFinalStateUnknown` marker wrapping the
last known object. -/
inductive Object (M S T U : Type) where
  | workspace (ws : Workspace M S T)
  | unstructured (u : U)
  | deletedFinalStateUnknown (key : String) (obj : Object M S T U)

/-- One call made by the controller to a collaborator. -/
inductive Event (M S T E : Type) where
  | queueGet
  | queueDone (key : String)
  | queueAdd (key : String)
  | queueAddRateLimited (key : String)
  | queueForget (key : String)
  | handleError (err : E)
  | handleSyncError (key : String) (err : E)
  | listerGet (cluster name : String)
  | statusReconcile (ws : Workspace M S T)
  | specReconcile (ws : Workspace M S T)
  | commit (old new : workspaceResource M S T)
  | byIndex (indexName indexedValue : String)
deriving DecidableEq, Repr

/-- The result of running a piece of the controller: the returned value, the world
afterwards and the calls made, oldest first. -/
structure Run (W Ev α : Type) where
  ret : α
  world : W
  events : List Ev

/-- The `Controller` struct together with the package-level collaborators it calls.
`M S T` are the workspace metadata, spec and status types, `E` is Go's `error`, `W` the
state of everything outside the controller, `U` is `*unstructured.Unstructured` and `G`
is `schema.GroupVersionResource`. -/
structure Controller (M S T E W U G : Type) where
  /-- The call `c.queue.Get()`: the key and the `quit` flag. -/
  queueGet : W → (String × Bool) × W
  /-- The call `c.queue.Done(key)`. -/
  queueDone : W → String → W
  /-- The call `c.queue.Add(key)`. -/
  queueAdd : W → String → W
  /-- The call `c.queue.AddRateLimited(key)`. -/
  queueAddRateLimited : W → String → W
  /-- The call `c.queue.Forget(key)`. -/
  queueForget : W → String → W
  /-- The function `kcpcache.SplitMetaClusterNamespaceKey`: cluster, namespace and name of a key. -/
  SplitMetaClusterNamespaceKey : String → Except E (String × String × String)
  /-- The function `kcpcache.MetaClusterNamespaceKeyFunc`. -/
  MetaClusterNamespaceKeyFunc : Object M S T U → Except E String
  /-- The predicate `kerrors.IsNotFound`. -/
  IsNotFound : E → Bool
  /-- The call `c.workspaceLister.Cluster(parent).Get(name)`, a read of the local cache. -/
  workspaceListerGet : W → String → String → Except E (Workspace M S T)
  /-- The call `statusUpdater.reconcile(ctx, workspace)`: the workspace as mutated in place, the
  returned status and the returned error. -/
  statusUpdaterReconcile : W → Workspace M S T → (Workspace M S T × reconcileStatus × Option E) × W
  /-- The call `specUpdater.reconcile(ctx, workspace)`, with the same shape. -/
  specUpdaterReconcile : W → Workspace M S T → (Workspace M S T × reconcileStatus × Option E) × W
  /-- The call `c.commit(ctx, first, second)`, arguments in call order. -/
  commit : W → workspaceResource M S T → workspaceResource M S T → Option E × W
  /-- The index name `workspaceMountsReferenceIndex`, declared outside the given sources. -/
  workspaceMountsReferenceIndex : String
  /-- The function `indexWorkspaceByMountObjectValue(gvr, u)`: the identity value of a secondary object. -/
  indexWorkspaceByMountObjectValue : G → U → Except E String
  /-- The call `indexers.ByIndex[*Workspace](c.workspaceIndexer, indexName, value)`, a cache
  read. -/
  ByIndex : W → String → String → Except E (List (Workspace M S T))

variable {M S T E W U G : Type}

/-- The method `Controller.enqueueWorkspace`: add the key of the object to the work queue; when the
key cannot be computed the error is handed to `HandleError` and nothing is queued. The
suffix only feeds the log line. -/
def enqueueWorkspace (c : Controller M S T E W U G) (obj : Object M S T U) (_suffix : String)
    (w : W) : Run W (Event M S T E) Unit :=
  match c.MetaClusterNamespaceKeyFunc obj with
  | .error err => { ret := (), world := w, events := [Event.handleError err] }
  | .ok key => { ret := (), world := c.queueAdd w key, events := [Event.queueAdd key] }

/-- The loop `for _, ws := range wss { c.enqueueWorkspace(ws, ...) }`. -/
def enqueueEach (c : Controller M S T E W U G) (suffix : String) :
    List (Workspace M S T) → W → Run W (Event M S T E) Unit
  | [], w => { ret := (), world := w, events := [] }
  | ws :: rest, w =>
    let r := enqueueWorkspace c (Object.workspace ws) suffix w
    let r2 := enqueueEach c suffix rest r.world
    { ret := (), world := r2.world, events := r.events ++ r2.events }

/-- The method `Controller.enqueuePotentiallyMountResource`. The result is `none` when the type
assertion `obj.(*unstructured.Unstructured)` fails, which panics in Go. -/
def enqueuePotentiallyMountResource (c : Controller M S T E W U G) (gvr : G)
    (obj : Object M S T U) (w : W) : Option (Run W (Event M S T E) Unit) :=
  match obj with
  | Object.unstructured u =>
    match c.indexWorkspaceByMountObjectValue gvr u with
    | .error err => some { ret := (), world := w, events := [Event.handleError err] }
    | .ok key =>
      match c.ByIndex w c.workspaceMountsReferenceIndex key with
      | .error err =>
        some { ret := (), world := w,
               events := [Event.byIndex c.workspaceMountsReferenceIndex key,
                          Event.handleError err] }
      | .ok wss =>
        let r := enqueueEach c (", because of mount resource: " ++ key) wss w
        some { ret := (), world := r.world,
               events := Event.byIndex c.workspaceMountsReferenceIndex key :: r.events }
  | _ => none

/-- The `AddFunc` closure of the handler set that `NewController` wraps in
`events.WithoutGVRSyncs` and registers on the dynamic informer factory. -/
def dynamicAddFunc (c : Controller M S T E W U G) (gvr : G) (obj : Object M S T U) (w : W) :
    Option (Run W (Event M S T E) Unit) :=
  enqueuePotentiallyMountResource c gvr obj w

/-- The `UpdateFunc` closure of the same handler set; the old object is ignored. It is
reached only through `WithoutGVRSyncs`. -/
def dynamicUpdateFunc (c : Controller M S T E W U G) (gvr : G) (_old obj : Object M S T U)
    (w : W) : Option (Run W (Event M S T E) Unit) :=
  enqueuePotentiallyMountResource c gvr obj w

/-- The `DeleteFunc` closure of the same handler set: a `DeletedFinalStateUnknown` marker
is replaced by the object it wraps. -/
def dynamicDeleteFunc (c : Controller M S T E W U G) (gvr : G) (obj : Object M S T U) (w : W) :
    Option (Run W (Event M S T E) Unit) :=
  let obj := match obj with
    | Object.deletedFinalStateUnknown _ final => final
    | other => other
  enqueuePotentiallyMountResource c gvr obj w

/-- The adapter `informer.GVREventHandlerFuncs`, declared outside the given sources: a
handler set like `cache.ResourceEventHandlerFuncs` whose functions also get the resource
of the informer. Each function may be left out (nil); a call that panics gives `none`. -/
structure GVREventHandlerFuncs (M S T E W U G : Type) where
  AddFunc : Option (G → Object M S T U → W → Option (Run W (Event M S T E) Unit))
  UpdateFunc :
    Option (G → Object M S T U → Object M S T U → W → Option (Run W (Event M S T E) Unit))
  DeleteFunc : Option (G → Object M S T U → W → Option (Run W (Event M S T E) Unit))

/-- The method `GVREventHandlerFuncs.OnAdd`: calls `AddFunc` if it is set. -/
def GVREventHandlerFuncs.OnAdd (h : GVREventHandlerFuncs M S T E W U G) (gvr : G)
    (obj : Object M S T U) (w : W) : Option (Run W (Event M S T E) Unit) :=
  match h.AddFunc with
  | some f => f gvr obj w
  | none => some { ret := (), world := w, events := [] }

/-- The method `GVREventHandlerFuncs.OnUpdate`: calls `UpdateFunc` if it is set. -/
def GVREventHandlerFuncs.OnUpdate (h : GVREventHandlerFuncs M S T E W U G) (gvr : G)
    (oldObj newObj : Object M S T U) (w : W) : Option (Run W (Event M S T E) Unit) :=
  match h.UpdateFunc with
  | some f => f gvr oldObj newObj w
  | none => some { ret := (), world := w, events := [] }

/-- The method `GVREventHandlerFuncs.OnDelete`: calls `DeleteFunc` if it is set. -/
def GVREventHandlerFuncs.OnDelete (h : GVREventHandlerFuncs M S T E W U G) (gvr : G)
    (obj : Object M S T U) (w : W) : Option (Run W (Event M S T E) Unit) :=
  match h.DeleteFunc with
  | some f => f gvr obj w
  | none => some { ret := (), world := w, events := [] }

/-- Modelled from the spec: the wrapper `events.WithoutGVRSyncs`, whose source is not among
the given files. It filters out syncs: an update whose old and new object carry the same
resourceVersion is dropped and does not reach the wrapped handler; adds, deletes and the
other updates are passed on unchanged. `resourceVersion` reads the resourceVersion of an
object through its metadata accessor and is `none` for an object without metadata, for
which the update is not passed on either. -/
def WithoutGVRSyncs (resourceVersion : Object M S T U → Option String)
    (handler : GVREventHandlerFuncs M S T E W U G) : GVREventHandlerFuncs M S T E W U G :=
  { AddFunc := some handler.OnAdd,
    UpdateFunc := some fun gvr oldObj newObj w =>
      match resourceVersion newObj, resourceVersion oldObj with
      | some newVersion, some oldVersion =>
        if newVersion = oldVersion then some { ret := (), world := w, events := [] }
        else handler.OnUpdate gvr oldObj newObj w
      | _, _ => some { ret := (), world := w, events := [] },
    DeleteFunc := some handler.OnDelete }

/-- The handler set that `NewController` builds for the dynamic informer factory, before
it is wrapped. -/
def dynamicEventHandlerFuncs (c : Controller M S T E W U G) :
    GVREventHandlerFuncs M S T E W U G :=
  { AddFunc := some (dynamicAddFunc c),
    UpdateFunc := some (dynamicUpdateFunc c),
    DeleteFunc := some (dynamicDeleteFunc c) }

/-- The handler that `NewController` registers on the dynamic informer factory:
`events.WithoutGVRSyncs(informer.GVREventHandlerFuncs{...})`. -/
def registeredDynamicEventHandler (resourceVersion : Object M S T U → Option String)
    (c : Controller M S T E W U G) : GVREventHandlerFuncs M S T E W U G :=
  WithoutGVRSyncs resourceVersion (dynamicEventHandlerFuncs c)

/-- The method `Controller.process`: one reconciliation pass for a key. Returns the pair
`(requeue, err)`. -/
def process (c : Controller M S T E W U G) (key : String) (w : W) :
    Run W (Event M S T E) (Bool × Option E) :=
  match c.SplitMetaClusterNamespaceKey key with
  | .error err => { ret := (false, some err), world := w, events := [] }
  | .ok (parent, _, name) =>
    match c.workspaceListerGet w parent name with
    | .error err =>
      if c.IsNotFound err then
        { ret := (false, none), world := w, events := [Event.listerGet parent name] }
      else
        { ret := (false, some err), world := w, events := [Event.listerGet parent name] }
    | .ok cached =>
      let old := cached
      let workspace := cached.DeepCopy
      -- reconcile the status
      match c.statusUpdaterReconcile w workspace with
      | ((_, _, some err), w1) =>
        { ret := (false, some err), world := w1,
          events := [Event.listerGet parent name, Event.statusReconcile workspace] }
      | ((workspace1, status, none), w1) =>
        if status = reconcileStatus.reconcileStatusStopAndRequeue then
          { ret := (true, none), world := w1,
            events := [Event.listerGet parent name, Event.statusReconcile workspace] }
        else
          let oldResource : workspaceResource M S T :=
            { ObjectMeta := old.ObjectMeta, Spec := old.Spec, Status := old.Status }
          let newResource : workspaceResource M S T :=
            { ObjectMeta := workspace1.ObjectMeta, Spec := old.Spec, Status := workspace1.Status }
          match c.commit w1 oldResource newResource with
          | (some err, w2) =>
            { ret := (false, some err), world := w2,
              events := [Event.listerGet parent name, Event.statusReconcile workspace,
                         Event.commit oldResource newResource] }
          | (none, w2) =>
            -- reconcile the spec
            match c.specUpdaterReconcile w2 workspace1 with
            | ((_, _, some err), w3) =>
              { ret := (false, some err), world := w3,
                events := [Event.listerGet parent name, Event.statusReconcile workspace,
                           Event.commit oldResource newResource,
                           Event.specReconcile workspace1] }
            | ((workspace2, status2, none), w3) =>
              if status2 = reconcileStatus.reconcileStatusStopAndRequeue then
                { ret := (true, none), world := w3,
                  events := [Event.listerGet parent name, Event.statusReconcile workspace,
                             Event.commit oldResource newResource,
                             Event.specReconcile workspace1] }
              else
                let oldResource2 : workspaceResource M S T :=
                  { ObjectMeta := workspace2.ObjectMeta, Spec := old.Spec, Status := old.Status }
                let newResource2 : workspaceResource M S T :=
                  { ObjectMeta := workspace2.ObjectMeta, Spec := workspace2.Spec,
                    Status := old.Status }
                match c.commit w3 oldResource2 newResource2 with
                | (some err, w4) =>
                  { ret := (false, some err), world := w4,
                    events := [Event.listerGet parent name, Event.statusReconcile workspace,
                               Event.commit oldResource newResource,
                               Event.specReconcile workspace1,
                               Event.commit oldResource2 newResource2] }
                | (none, w4) =>
                  { ret := (false, none), world := w4,
                    events := [Event.listerGet parent name, Event.statusReconcile workspace,
                               Event.commit oldResource newResource,
                               Event.specReconcile workspace1,
                               Event.commit oldResource2 newResource2] }

/-- The method `Controller.processNextWorkItem`: take a key from the queue, run `process`, settle the
outcome against the queue and, through the deferred call, tell the queue the key is done.
Returns whether the worker loop continues. -/
def processNextWorkItem (c : Controller M S T E W U G) (w : W) : Run W (Event M S T E) Bool :=
  match c.queueGet w with
  | ((_, true), w1) => { ret := false, world := w1, events := [Event.queueGet] }
  | ((k, false), w1) =>
    let key := k
    let p := process c key w1
    match p.ret with
    | (_, some err) =>
      { ret := true,
        world := c.queueDone (c.queueAddRateLimited p.world key) key,
        events := Event.queueGet :: p.events ++
          [Event.handleSyncError key err, Event.queueAddRateLimited key, Event.queueDone key] }
    | (true, none) =>
      { ret := true,
        world := c.queueDone (c.queueAdd p.world key) key,
        events := Event.queueGet :: p.events ++ [Event.queueAdd key, Event.queueDone key] }
    | (false, none) =>
      { ret := true,
        world := c.queueDone (c.queueForget p.world key) key,
        events := Event.queueGet :: p.events ++ [Event.queueForget key, Event.queueDone key] }

/-- Whether an event is a call on the work queue. -/
def Event.isQueueOp : Event M S T E → Bool
  | Event.queueGet => true
  | Event.queueDone _ => true
  | Event.queueAdd _ => true
  | Event.queueAddRateLimited _ => true
  | Event.queueForget _ => true
  | _ => false

/-- The work-queue calls among a sequence of events, in order. -/
def queueOps (es : List (Event M S T E)) : List (Event M S T E) :=
  es.filter Event.isQueueOp

/-- The commit calls among a sequence of events, in order, as pairs of arguments. -/
def commits : List (Event M S T E) → List (workspaceResource M S T × workspaceResource M S T)
  | [] => []
  | Event.commit o n :: es => (o, n) :: commits es
  | _ :: es => commits es

/-- Modelled from the spec: the per-key failure count kept by the rate limiter of the work
queue (an external library): `AddRateLimited(k)` advances the count of `k`, `Forget(k)`
resets it to the base, every other call leaves it alone. -/
def numRequeues (key : String) : List (Event M S T E) → Nat → Nat
  | [], n => n
  | Event.queueAddRateLimited k :: es, n => numRequeues key es (if k = key then n + 1 else n)
  | Event.queueForget k :: es, n => numRequeues key es (if k = key then 0 else n)
  | _ :: es, n => numRequeues key es n

/-! ## A concrete controller for evaluating the definitions -/

/-- Cut a text at every occurrence of a separator, as Go's `strings.Split` does for a
separator of one character. -/
def demoSplit (sep : Char) : List Char → List (List Char)
  | [] => [[]]
  | ch :: rest =>
    if ch = sep then [] :: demoSplit sep rest
    else
      match demoSplit sep rest with
      | [] => [[ch]]
      | first :: more => (ch :: first) :: more

/-- The key parser of the demo controller, following `cache.SplitMetaNamespaceKey` of
client-go: `name` or `namespace/name`; more than one `/` is an error. -/
def demoSplitMetaNamespaceKey (key : String) (cluster : String) (part : List Char) :
    Except String (String × String × String) :=
  match demoSplit '/' part with
  | [name] => .ok (cluster, "", String.mk name)
  | [ns, name] => .ok (cluster, String.mk ns, String.mk name)
  | _ => .error ("unexpected key format: " ++ key)

/-- The key parser of the demo controller, following
`kcpcache.SplitMetaClusterNamespaceKey`: an optional `cluster|` in front of `name` or
`namespace/name`; more than one `|` is an error. -/
def demoSplitMetaClusterNamespaceKey (key : String) : Except String (String × String × String) :=
  match demoSplit '|' key.data with
  | [part] => demoSplitMetaNamespaceKey key "" part
  | [cluster, part] => demoSplitMetaNamespaceKey key (String.mk cluster) part
  | _ => .error ("unexpected key format: " ++ key)

/-- A small controller over string metadata, numeric spec and status, string errors and a
world that logs the queue calls applied to it. Keys are parsed as
`kcpcache.SplitMetaClusterNamespaceKey` parses them. The lister answer, the two
reconcilers and the committer are arguments. -/
def demoController
    (lister : Except String (Workspace String Nat Nat))
    (statusRec specRec : Workspace String Nat Nat → Workspace String Nat Nat × reconcileStatus × Option String)
    (commitRes : workspaceResource String Nat Nat → workspaceResource String Nat Nat → Option String)
    (next : String) :
    Controller String Nat Nat String (List String) String String where
  queueGet := fun w => ((next, false), w)
  queueDone := fun w k => w ++ ["Done " ++ k]
  queueAdd := fun w k => w ++ ["Add " ++ k]
  queueAddRateLimited := fun w k => w ++ ["AddRateLimited " ++ k]
  queueForget := fun w k => w ++ ["Forget " ++ k]
  SplitMetaClusterNamespaceKey := demoSplitMetaClusterNamespaceKey
  MetaClusterNamespaceKeyFunc := fun o =>
    match o with
    | Object.workspace ws => .ok ("root|" ++ ws.ObjectMeta)
    | _ => .error "object has no meta"
  IsNotFound := fun e => e = "not found"
  workspaceListerGet := fun _ _ _ => lister
  statusUpdaterReconcile := fun w ws => (statusRec ws, w)
  specUpdaterReconcile := fun w ws => (specRec ws, w)
  commit := fun w o n => (commitRes o n, w)
  workspaceMountsReferenceIndex := "WorkspaceMountsReference"
  indexWorkspaceByMountObjectValue := fun gvr u =>
    if u = "" then .error "no name" else .ok (gvr ++ "/" ++ u)
  ByIndex := fun _ _ v =>
    if v = "cowboys/broken" then .error "index failure"
    else if v = "cowboys/joe" then
      .ok [{ ObjectMeta := "ws", Spec := 0, Status := 0 }, { ObjectMeta := "other", Spec := 0, Status := 0 }]
    else .ok []

/-- The resourceVersion of the objects of the examples: the cowboy `joe-before` is `joe`
at the earlier version 7, every other object is at version 8, and a
`DeletedFinalStateUnknown` marker has no metadata. -/
def demoResourceVersion : Object String Nat Nat String → Option String
  | Object.unstructured u => if u = "joe-before" then some "7" else some "8"
  | Object.workspace _ => some "8"
  | Object.deletedFinalStateUnknown _ _ => none

/-- The cached workspace used in the examples. -/
def demoWorkspace : Workspace String Nat Nat := { ObjectMeta := "ws", Spec := 1, Status := 2 }

/-- A reconciler step that changes nothing and continues. -/
def demoContinue (ws : Workspace String Nat Nat) :
    Workspace String Nat Nat × reconcileStatus × Option String :=
  (ws, reconcileStatus.reconcileStatusContinue, none)

/-- A reconciler step that reports that a dependency is not ready. -/
def demoStop (ws : Workspace String Nat Nat) :
    Workspace String Nat Nat × reconcileStatus × Option String :=
  (ws, reconcileStatus.reconcileStatusStopAndRequeue, none)

/-- A committer that accepts every patch. -/
def demoCommitOk (_o _n : workspaceResource String Nat Nat) : Option String := none

/-! ## Concrete passes -/

/-- A pass in which the status reconciler asks for a requeue. -/
def demoRequeueController : Controller String Nat Nat String (List String) String String :=
  demoController (.ok demoWorkspace) demoStop demoContinue demoCommitOk "root|ws"

/-- A pass over the key `a|b|c`, which has two `|` and cannot be parsed. -/
def demoMalformedKeyController : Controller String Nat Nat String (List String) String String :=
  demoController (.ok demoWorkspace) demoContinue demoContinue demoCommitOk "a|b|c"

/-- A pass in which the lister fails with an error that is not NotFound. -/
def demoListerErrorController : Controller String Nat Nat String (List String) String String :=
  demoController (.error "cache unavailable") demoContinue demoContinue demoCommitOk "root|ws"

/-- A pass in which everything succeeds and nothing changes. -/
def demoSuccessController : Controller String Nat Nat String (List String) String String :=
  demoController (.ok demoWorkspace) demoContinue demoContinue demoCommitOk "root|ws"

/-- A pass in which the lister reports that the workspace is gone. -/
def demoNotFoundController : Controller String Nat Nat String (List String) String String :=
  demoController (.error "not found") demoContinue demoContinue demoCommitOk "root|ws"

/-- A committer that rejects every patch with a conflict. -/
def demoCommitConflict (_o _n : workspaceResource String Nat Nat) : Option String :=
  some "conflict"

/-- A pass in which the status commit is rejected. -/
def demoCommitConflictController : Controller String Nat Nat String (List String) String String :=
  demoController (.ok demoWorkspace) demoContinue demoContinue demoCommitConflict "root|ws"

/-- A status reconciler that sets the status and also touches the metadata. -/
def demoStatusTouchingMeta (ws : Workspace String Nat Nat) :
    Workspace String Nat Nat × reconcileStatus × Option String :=
  ({ ObjectMeta := ws.ObjectMeta ++ "+annotated", Spec := ws.Spec, Status := 7 },
    reconcileStatus.reconcileStatusContinue, none)

/-- A spec reconciler that sets the spec, and also touches status and metadata. -/
def demoSpecTouchingAll (ws : Workspace String Nat Nat) :
    Workspace String Nat Nat × reconcileStatus × Option String :=
  ({ ObjectMeta := ws.ObjectMeta ++ "+url", Spec := 9, Status := ws.Status + 1 },
    reconcileStatus.reconcileStatusContinue, none)

/-- A pass whose reconcilers write outside their own sub-resource. -/
def demoMetaController : Controller String Nat Nat String (List String) String String :=
  demoController (.ok demoWorkspace) demoStatusTouchingMeta demoSpecTouchingAll demoCommitOk
    "root|ws"

/-- A pass whose spec reconciler writes outside the spec while the status reconciler
changes nothing. -/
def demoSpecOnlyController : Controller String Nat Nat String (List String) String String :=
  demoController (.ok demoWorkspace) demoContinue demoSpecTouchingAll demoCommitOk "root|ws"

/-- The old resource of the spec commit in the pass of `demoMetaController`. -/
def demoSpecCommitOld : workspaceResource String Nat Nat :=
  { ObjectMeta := "ws+annotated+url", Spec := 1, Status := 2 }

/-- The new resource of the spec commit in the pass of `demoMetaController`. -/
def demoSpecCommitNew : workspaceResource String Nat Nat :=
  { ObjectMeta := "ws+annotated+url", Spec := 9, Status := 2 }

/-- The old resource of the spec commit in the pass of `demoSpecOnlyController`. -/
def demoSpecOnlyCommitOld : workspaceResource String Nat Nat :=
  { ObjectMeta := "ws+url", Spec := 1, Status := 2 }

/-- The new resource of the spec commit in the pass of `demoSpecOnlyController`. -/
def demoSpecOnlyCommitNew : workspaceResource String Nat Nat :=
  { ObjectMeta := "ws+url", Spec := 9, Status := 2 }

/-! ## Handlers of the workspace informer -/

/-- The adapter `cache.ResourceEventHandlerFuncs` of client-go: a handler set in which
each of the three functions may be left out (nil). -/
structure ResourceEventHandlerFuncs (M S T E W U : Type) where
  AddFunc : Option (Object M S T U → W → Run W (Event M S T E) Unit)
  UpdateFunc : Option (Object M S T U → Object M S T U → W → Run W (Event M S T E) Unit)
  DeleteFunc : Option (Object M S T U → W → Run W (Event M S T E) Unit)

/-- The method `ResourceEventHandlerFuncs.OnAdd`: calls `AddFunc` if it is set. -/
def ResourceEventHandlerFuncs.OnAdd (h : ResourceEventHandlerFuncs M S T E W U)
    (obj : Object M S T U) (w : W) : Run W (Event M S T E) Unit :=
  match h.AddFunc with
  | some f => f obj w
  | none => { ret := (), world := w, events := [] }

/-- The method `ResourceEventHandlerFuncs.OnUpdate`: calls `UpdateFunc` if it is set. -/
def ResourceEventHandlerFuncs.OnUpdate (h : ResourceEventHandlerFuncs M S T E W U)
    (oldObj newObj : Object M S T U) (w : W) : Run W (Event M S T E) Unit :=
  match h.UpdateFunc with
  | some f => f oldObj newObj w
  | none => { ret := (), world := w, events := [] }

/-- The method `ResourceEventHandlerFuncs.OnDelete`: calls `DeleteFunc` if it is set. -/
def ResourceEventHandlerFuncs.OnDelete (h : ResourceEventHandlerFuncs M S T E W U)
    (obj : Object M S T U) (w : W) : Run W (Event M S T E) Unit :=
  match h.DeleteFunc with
  | some f => f obj w
  | none => { ret := (), world := w, events := [] }

/-- The handler set that `NewController` registers on the workspace informer: `AddFunc`
and `UpdateFunc` enqueue the (new) object with an empty suffix, `DeleteFunc` is not set. -/
def workspaceEventHandlerFuncs (c : Controller M S T E W U G) :
    ResourceEventHandlerFuncs M S T E W U :=
  { AddFunc := some fun obj => enqueueWorkspace c obj "",
    UpdateFunc := some fun _ obj => enqueueWorkspace c obj "",
    DeleteFunc := none }

/-! ## Lookup of the mount object -/

/-- The struct `schema.GroupVersionResource`. -/
structure GroupVersionResource where
  Group : String
  Version : String
  Resource : String
deriving DecidableEq, Repr

/-- The struct `tenancyv1alpha1.ObjectReference`, declared outside the given sources, with
the four fields the lookup reads. -/
structure ObjectReference where
  APIVersion : String
  Kind : String
  Name : String
  Namespace : String
deriving DecidableEq, Repr

/-- One `Get` on the dynamic cluster client:
`c.dynamicClusterClient.Cluster(cluster).Resource(gvr)[.Namespace(ns)].Get(ctx, name, ...)`.
The field `Namespace` is `none` when the call is made without `.Namespace(...)`. -/
structure DynamicGet where
  cluster : String
  gvr : GroupVersionResource
  Namespace : Option String
  name : String
deriving DecidableEq, Repr

/-- Cut a text at the first occurrence of a separator: the text before it and the text
after it, or `none` when the separator does not occur. -/
def cutAt (sep : Char) : List Char → Option (List Char × List Char)
  | [] => none
  | ch :: rest =>
    if ch = sep then some ([], rest)
    else
      match cutAt sep rest with
      | none => none
      | some (before, after) => some (ch :: before, after)

/-- Go's `strings.SplitN(s, sep, n)` for a separator of one character and `n ≥ 0`: at most
`n` substrings between separators, the last one being the unsplit remainder; `n = 0` gives
no substring, and a text without separator gives the text itself. -/
def SplitN (s : String) (sep : Char) : Nat → List String
  | 0 => []
  | 1 => [s]
  | n + 2 =>
    match cutAt sep s.data with
    | none => [s]
    | some (before, after) => String.mk before :: SplitN (String.mk after) sep (n + 1)

/-- The closure `getMountObjectFunc` built in `process` and handed to both reconcilers.
`ToLower` is Go's `strings.ToLower` and `dynamicGet` the dynamic cluster client; the `Get`
issued is recorded as the one event of the run. -/
def getMountObjectFunc (ToLower : String → String)
    (dynamicGet : W → DynamicGet → Except E U × W)
    (w : W) (cluster : String) (ref : ObjectReference) : Run W DynamicGet (Except E U) :=
  let resource := ToLower ref.Kind ++ "s"
  let gvr : GroupVersionResource := { Group := "", Version := "", Resource := resource }
  let cs := SplitN ref.APIVersion '/' 2
  let gvr : GroupVersionResource :=
    if cs.length = 2 then { gvr with Group := cs.getD 0 "", Version := cs.getD 1 "" }
    else { gvr with Version := ref.APIVersion }
  if ref.Namespace ≠ "" then
    let call : DynamicGet :=
      { cluster := cluster, gvr := gvr, Namespace := some ref.Namespace, name := ref.Name }
    let r := dynamicGet w call
    { ret := r.1, world := r.2, events := [call] }
  else
    let call : DynamicGet :=
      { cluster := cluster, gvr := gvr, Namespace := none, name := ref.Name }
    let r := dynamicGet w call
    { ret := r.1, world := r.2, events := [call] }

/-- A lower-casing of the letters `A` to `Z`, standing in for `strings.ToLower` in the
examples. -/
def demoToLower (s : String) : String := String.mk (s.data.map Char.toLower)

/-- A dynamic client for evaluating the lookup: it finds nothing. -/
def demoDynamicGet (w : List String) (_call : DynamicGet) : Except String String × List String :=
  (.error "not found", w)

/-- A namespaced reference to a cowboy. -/
def demoCowboyRef : ObjectReference :=
  { APIVersion := "wildwest.dev/v1alpha1", Kind := "Cowboy", Name := "joe",
    Namespace := "default" }

/-- A cluster-scoped reference in the core group. -/
def demoCoreRef : ObjectReference :=
  { APIVersion := "v1", Kind := "Namespace", Name := "kube-system", Namespace := "" }

/-! ## The work queue shared by the workers -/

/-- Modelled from the spec: the state of the work queue of section 4.1, which is an
external library: the pending keys in the order of delivery, the keys returned by `Get`
and not yet passed to `Done` (in flight), and the in-flight keys marked dirty. -/
structure WorkQueue where
  pending : List String
  inFlight : List String
  dirty : List String
deriving DecidableEq, Repr

/-- Modelled from the spec: `Add(k)` on the work queue. A key that is already pending is
not added again; a key in flight is only marked dirty and is not made retrievable; any
other key joins the pending keys. -/
def WorkQueue.Add (q : WorkQueue) (k : String) : WorkQueue :=
  if k ∈ q.pending then q
  else if k ∈ q.inFlight then
    { q with dirty := if k ∈ q.dirty then q.dirty else k :: q.dirty }
  else { q with pending := q.pending ++ [k] }

/-- Modelled from the spec: `Get()` on the work queue. With no pending key the call blocks
(`none`); otherwise the first pending key is returned and is in flight from then on. -/
def WorkQueue.Get (q : WorkQueue) : Option (String × WorkQueue) :=
  match q.pending with
  | [] => none
  | k :: rest => some (k, { q with pending := rest, inFlight := k :: q.inFlight })

/-- Modelled from the spec: `Done(k)` on the work queue. The key is no longer in flight,
and if it was marked dirty it is re-queued at once. -/
def WorkQueue.Done (q : WorkQueue) (k : String) : WorkQueue :=
  if k ∈ q.dirty then
    { pending := q.pending ++ [k],
      inFlight := q.inFlight.filter (fun x => x != k),
      dirty := q.dirty.filter (fun x => x != k) }
  else { q with inFlight := q.inFlight.filter (fun x => x != k) }

/-- Where a worker stands in `processNextWorkItem`: waiting in `Get`, running `process`
for the key it got, or past the queue call of its branch with the deferred `Done` still
to run. -/
inductive WorkerPhase where
  | idle
  | processing (key : String)
  | settled (key : String)
deriving DecidableEq, Repr

/-- The key a worker is working on, if any. -/
def WorkerPhase.key? : WorkerPhase → Option String
  | WorkerPhase.idle => none
  | WorkerPhase.processing k => some k
  | WorkerPhase.settled k => some k

/-- The queue call `processNextWorkItem` makes after `process`, by branch. -/
inductive SettleCall where
  | Add
  | AddRateLimited
  | Forget
deriving DecidableEq, Repr

/-- One atomic step of the system: somebody adds a key (an event handler, or the queue
itself when a rate-limited delay has run out), or a worker makes the next queue call of
`processNextWorkItem`. -/
inductive PoolAction where
  | add (key : String)
  | get (worker : Nat)
  | settle (worker : Nat) (call : SettleCall)
  | done (worker : Nat)
deriving DecidableEq, Repr

/-- The shared queue and the workers started by `Start`. -/
structure WorkerPool where
  queue : WorkQueue
  workers : List WorkerPhase
deriving DecidableEq, Repr

/-- The pool right after `Start(ctx, numThreads)`: an empty queue and idle workers. -/
def WorkerPool.start (numThreads : Nat) : WorkerPool :=
  { queue := { pending := [], inFlight := [], dirty := [] },
    workers := List.replicate numThreads WorkerPhase.idle }

/-- Worker `i` is working on key `k`: `Get` returned `k` to it and it has not yet called
`Done(k)`. -/
def WorkerPool.holds (p : WorkerPool) (i : Nat) (k : String) : Prop :=
  (p.workers[i]?).bind WorkerPhase.key? = some k

/-- One step of the pool; `none` when the action cannot be taken in this state (the worker
is at another point of `processNextWorkItem`, or `Get` blocks). The worker calls follow
`processNextWorkItem`: `Get`, then after `process` one of `Add`, `AddRateLimited`,
`Forget` on the key, then the deferred `Done` on the key. `AddRateLimited` hands the key
to the delaying part of the queue, which adds it later (an `add` step); `Forget` only
resets the backoff. -/
def WorkerPool.step (p : WorkerPool) : PoolAction → Option WorkerPool
  | PoolAction.add k => some { p with queue := p.queue.Add k }
  | PoolAction.get i =>
    match p.workers[i]? with
    | some WorkerPhase.idle =>
      match p.queue.Get with
      | some (k, q) => some { queue := q, workers := p.workers.set i (WorkerPhase.processing k) }
      | none => none
    | _ => none
  | PoolAction.settle i call =>
    match p.workers[i]? with
    | some (WorkerPhase.processing k) =>
      some { queue := (match call with
                       | SettleCall.Add => p.queue.Add k
                       | _ => p.queue),
             workers := p.workers.set i (WorkerPhase.settled k) }
    | _ => none
  | PoolAction.done i =>
    match p.workers[i]? with
    | some (WorkerPhase.settled k) =>
      some { queue := p.queue.Done k, workers := p.workers.set i WorkerPhase.idle }
    | _ => none

/-- Run a sequence of steps; `none` when one of them cannot be taken. -/
def WorkerPool.run (p : WorkerPool) : List PoolAction → Option WorkerPool
  | [] => some p
  | a :: rest =>
    match p.step a with
    | some p2 => p2.run rest
    | none => none

/-- Two workers and two updates of `root|ws` while it is being reconciled. -/
def demoSchedule : List PoolAction :=
  [PoolAction.add "root|ws", PoolAction.get 0, PoolAction.add "root|ws",
   PoolAction.add "root|ws", PoolAction.add "root|other", PoolAction.get 1,
   PoolAction.settle 0 SettleCall.Forget]

/-- The pool after `demoSchedule`. -/
def demoPool : WorkerPool :=
  { queue := { pending := [], inFlight := ["root|other", "root|ws"], dirty := ["root|ws"] },
    workers := [WorkerPhase.settled "root|ws", WorkerPhase.processing "root|other"] }

instance (p : WorkerPool) (i : Nat) (k : String) : Decidable (p.holds i k) :=
  inferInstanceAs (Decidable ((p.workers[i]?).bind WorkerPhase.key? = some k))

/-- What holds in every state the pool can reach: pending keys are distinct and not in
flight, a key a worker holds is in flight, and no key is held by two workers. -/
structure WorkerPool.Inv (p : WorkerPool) : Prop where
  pending_nodup : p.queue.pending.Nodup
  pending_not_inFlight : ∀ k ∈ p.queue.pending, k ∉ p.queue.inFlight
  held_inFlight : ∀ i k, p.holds i k → k ∈ p.queue.inFlight
  exclusive : ∀ i j k, p.holds i k → p.holds j k → i = j

/-! ## Shape of one pass -/

section Driver

variable (c : Controller M S T E W U G)

/-- The calls made by `process` never touch the work queue. -/
theorem process_queueOps (key : String) (w : W) :
    queueOps (process c key w).events = [] := by
  simp only [process]
  repeat' split
  all_goals rfl

/-- No event of `process` is a work-queue call. -/
theorem process_not_queueOp (key : String) (w : W) (e : Event M S T E)
    (he : e ∈ (process c key w).events) : e.isQueueOp = false := by
  have h := process_queueOps c key w
  unfold queueOps at h
  rw [List.filter_eq_nil_iff] at h
  simpa using h e he

/-- The queue has shut down: the pass makes no call but `Get` and stops the loop. -/
theorem processNextWorkItem_quit (w w1 : W) (k : String)
    (hget : c.queueGet w = ((k, true), w1)) :
    (processNextWorkItem c w).ret = false ∧ (processNextWorkItem c w).world = w1 ∧
      (processNextWorkItem c w).events = [Event.queueGet] := by
  simp [processNextWorkItem, hget]

/-- The error branch of `processNextWorkItem`. -/
theorem processNextWorkItem_of_error (w w1 : W) (key : String) (rq : Bool) (err : E)
    (hget : c.queueGet w = ((key, false), w1))
    (hp : (process c key w1).ret = (rq, some err)) :
    (processNextWorkItem c w).ret = true ∧
      (processNextWorkItem c w).world =
        c.queueDone (c.queueAddRateLimited (process c key w1).world key) key ∧
      (processNextWorkItem c w).events = Event.queueGet :: (process c key w1).events ++
        [Event.handleSyncError key err, Event.queueAddRateLimited key, Event.queueDone key] := by
  simp [processNextWorkItem, hget, hp]

/-- The requeue branch of `processNextWorkItem`. -/
theorem processNextWorkItem_of_requeue (w w1 : W) (key : String)
    (hget : c.queueGet w = ((key, false), w1))
    (hp : (process c key w1).ret = (true, none)) :
    (processNextWorkItem c w).ret = true ∧
      (processNextWorkItem c w).world =
        c.queueDone (c.queueAdd (process c key w1).world key) key ∧
      (processNextWorkItem c w).events = Event.queueGet :: (process c key w1).events ++
        [Event.queueAdd key, Event.queueDone key] := by
  simp [processNextWorkItem, hget, hp]

/-- The success branch of `processNextWorkItem`. -/
theorem processNextWorkItem_of_success (w w1 : W) (key : String)
    (hget : c.queueGet w = ((key, false), w1))
    (hp : (process c key w1).ret = (false, none)) :
    (processNextWorkItem c w).ret = true ∧
      (processNextWorkItem c w).world =
        c.queueDone (c.queueForget (process c key w1).world key) key ∧
      (processNextWorkItem c w).events = Event.queueGet :: (process c key w1).events ++
        [Event.queueForget key, Event.queueDone key] := by
  simp [processNextWorkItem, hget, hp]

/-- The work-queue calls of a pass are `Get` followed by the calls made after `process`. -/
theorem queueOps_pass (key : String) (w1 : W) (tail : List (Event M S T E)) :
    queueOps (Event.queueGet :: (process c key w1).events ++ tail) =
      Event.queueGet :: queueOps tail := by
  have h := process_queueOps c key w1
  unfold queueOps at h ⊢
  simp [List.filter_cons, List.filter_append, h, Event.isQueueOp]

/-- The failure count of a key is not changed by the calls of `process`. -/
theorem numRequeues_of_no_queueOps (key : String) (es : List (Event M S T E))
    (h : ∀ e ∈ es, e.isQueueOp = false) (n : Nat) : numRequeues key es n = n := by
  induction es generalizing n with
  | nil => rfl
  | cons e es ih =>
    have he := h e (List.mem_cons_self e es)
    have ht : ∀ x ∈ es, x.isQueueOp = false := fun x hx => h x (List.mem_cons_of_mem e hx)
    cases e <;> simp_all [numRequeues, Event.isQueueOp]

/-- The failure count threads through concatenation. -/
theorem numRequeues_append (key : String) (es fs : List (Event M S T E)) (n : Nat) :
    numRequeues key (es ++ fs) n = numRequeues key fs (numRequeues key es n) := by
  induction es generalizing n with
  | nil => rfl
  | cons e es ih => cases e <;> simp [numRequeues, ih]

end Driver

/-! ## Settling the outcome of a pass against the queue -/

section Settle

variable (c : Controller M S T E W U G)

/-- A work-queue call is among the events exactly when it is among the work-queue calls. -/
theorem mem_queueOps_iff (es : List (Event M S T E)) (e : Event M S T E)
    (h : e.isQueueOp = true) : e ∈ es ↔ e ∈ queueOps es := by
  simp [queueOps, List.mem_filter, h]

/-- C1, as stated, fails: in a pass whose status reconciler asks for a requeue, the queue
calls are `Get`, `Add`, `Done` in this order, so `Done` is not called before `Add`. -/
theorem processNextWorkItem_requeue_done_is_last :
    demoRequeueController.queueGet [] = (("root|ws", false), []) ∧
    (process demoRequeueController "root|ws" []).ret = (true, none) ∧
    queueOps (processNextWorkItem demoRequeueController []).events =
      [Event.queueGet, Event.queueAdd "root|ws", Event.queueDone "root|ws"] ∧
    ¬ List.Sublist [Event.queueDone "root|ws", Event.queueAdd "root|ws"]
        (processNextWorkItem demoRequeueController []).events := by
  decide

/-- C1 (amended): when `Get` returns a key and `process` ends with a requeue request and
no error, `processNextWorkItem` calls `Add(key)` first and the deferred `Done(key)` after
it: these are its last two calls, the only queue calls after `Get`, no `Done(key)`
precedes an `Add(key)`, and the queue is left as `Add(key)` followed by `Done(key)` turn
the state that `process` left. -/
theorem processNextWorkItem_requeue_add_then_done (w w1 : W) (key : String)
    (hget : c.queueGet w = ((key, false), w1))
    (hp : (process c key w1).ret = (true, none)) :
    (processNextWorkItem c w).events =
        Event.queueGet :: (process c key w1).events ++ [Event.queueAdd key, Event.queueDone key] ∧
      queueOps (processNextWorkItem c w).events =
        [Event.queueGet, Event.queueAdd key, Event.queueDone key] ∧
      ¬ List.Sublist [Event.queueDone key, Event.queueAdd key]
          (processNextWorkItem c w).events ∧
      (processNextWorkItem c w).world =
        c.queueDone (c.queueAdd (process c key w1).world key) key := by
  obtain ⟨_, hw, hev⟩ := processNextWorkItem_of_requeue c w w1 key hget hp
  have hq : queueOps (processNextWorkItem c w).events =
      [Event.queueGet, Event.queueAdd key, Event.queueDone key] := by
    rw [hev, queueOps_pass]; rfl
  refine ⟨hev, hq, ?_, hw⟩
  intro hsub
  have h2 := hsub.filter Event.isQueueOp
  change List.Sublist [Event.queueDone key, Event.queueAdd key]
    (queueOps (processNextWorkItem c w).events) at h2
  rw [hq] at h2
  simp [List.cons_sublist_cons, List.sublist_cons_iff] at h2

/-- C1 (amended), evaluated on the requeue pass of the demo controller. -/
theorem processNextWorkItem_requeue_add_then_done_witness :
    queueOps (processNextWorkItem demoRequeueController []).events =
      [Event.queueGet, Event.queueAdd "root|ws", Event.queueDone "root|ws"] ∧
    (processNextWorkItem demoRequeueController []).world = ["Add root|ws", "Done root|ws"] :=
  have h := processNextWorkItem_requeue_add_then_done demoRequeueController [] [] "root|ws"
    (by decide) (by decide)
  ⟨h.2.1, h.2.2.2.trans (by decide)⟩

/-- C2, as stated, fails: for the key `a|b|c`, which `SplitMetaClusterNamespaceKey`
rejects because it has more than one `|`, the pass calls `AddRateLimited` on that key and
applies it to the queue, so the key is retried. -/
theorem processNextWorkItem_malformed_key_is_retried :
    demoMalformedKeyController.queueGet [] = (("a|b|c", false), []) ∧
    demoMalformedKeyController.SplitMetaClusterNamespaceKey "a|b|c" =
      .error "unexpected key format: a|b|c" ∧
    Event.queueAddRateLimited "a|b|c" ∈
      (processNextWorkItem demoMalformedKeyController []).events ∧
    (processNextWorkItem demoMalformedKeyController []).world =
      ["AddRateLimited a|b|c", "Done a|b|c"] :=
  ⟨rfl, rfl, by decide, by decide⟩

/-- C2 (amended): for a key that `SplitMetaClusterNamespaceKey` cannot parse, `process`
returns the parse error without calling any collaborator, and the pass of
`processNextWorkItem` reports the error, calls `AddRateLimited(key)` and then `Done(key)`,
and nothing else after `Get`: no `Add`, no `Forget`. The key is re-enqueued with backoff. -/
theorem processNextWorkItem_malformed_key (w w1 : W) (key : String) (err : E)
    (hget : c.queueGet w = ((key, false), w1))
    (hsplit : c.SplitMetaClusterNamespaceKey key = .error err) :
    (process c key w1).ret = (false, some err) ∧
      (process c key w1).events = [] ∧
      (process c key w1).world = w1 ∧
      (processNextWorkItem c w).events =
        [Event.queueGet, Event.handleSyncError key err, Event.queueAddRateLimited key,
         Event.queueDone key] ∧
      (processNextWorkItem c w).world = c.queueDone (c.queueAddRateLimited w1 key) key ∧
      (processNextWorkItem c w).ret = true := by
  have hp : process c key w1 = { ret := (false, some err), world := w1, events := [] } := by
    simp only [process, hsplit]
  obtain ⟨hr, hw, hev⟩ := processNextWorkItem_of_error c w w1 key false err hget (by rw [hp])
  rw [hp] at hw hev
  exact ⟨by rw [hp], by rw [hp], by rw [hp], by simpa using hev, hw, hr⟩

/-- C2 (amended), evaluated on the key `a|b|c`, which the parser rejects. -/
theorem processNextWorkItem_malformed_key_witness :
    demoMalformedKeyController.SplitMetaClusterNamespaceKey "a|b|c" =
      .error "unexpected key format: a|b|c" ∧
    (processNextWorkItem demoMalformedKeyController []).events =
      [Event.queueGet, Event.handleSyncError "a|b|c" "unexpected key format: a|b|c",
       Event.queueAddRateLimited "a|b|c", Event.queueDone "a|b|c"] ∧
    (processNextWorkItem demoMalformedKeyController []).world =
      ["AddRateLimited a|b|c", "Done a|b|c"] :=
  have h := processNextWorkItem_malformed_key demoMalformedKeyController [] [] "a|b|c"
    "unexpected key format: a|b|c" (by decide) rfl
  ⟨rfl, h.2.2.2.1, h.2.2.2.2.1⟩

/-- C3: when `Get` returns a key and `process` returns an error, the queue calls of
`processNextWorkItem` after `Get` are exactly `AddRateLimited(key)` followed by
`Done(key)`, and both are applied, in this order, to the queue as `process` left it; there
is no `Add` and no `Forget`, the error is reported once, and the function returns true so
that the worker loop continues. -/
theorem processNextWorkItem_error_path (w w1 : W) (key : String) (rq : Bool) (err : E)
    (hget : c.queueGet w = ((key, false), w1))
    (hp : (process c key w1).ret = (rq, some err)) :
    queueOps (processNextWorkItem c w).events =
        [Event.queueGet, Event.queueAddRateLimited key, Event.queueDone key] ∧
      (processNextWorkItem c w).events = Event.queueGet :: (process c key w1).events ++
        [Event.handleSyncError key err, Event.queueAddRateLimited key, Event.queueDone key] ∧
      (∀ k, Event.queueAdd k ∉ (processNextWorkItem c w).events) ∧
      (∀ k, Event.queueForget k ∉ (processNextWorkItem c w).events) ∧
      (processNextWorkItem c w).ret = true ∧
      (processNextWorkItem c w).world =
        c.queueDone (c.queueAddRateLimited (process c key w1).world key) key := by
  obtain ⟨hr, hw, hev⟩ := processNextWorkItem_of_error c w w1 key rq err hget hp
  have hq : queueOps (processNextWorkItem c w).events =
      [Event.queueGet, Event.queueAddRateLimited key, Event.queueDone key] := by
    rw [hev, queueOps_pass]; rfl
  refine ⟨hq, hev, ?_, ?_, hr, hw⟩
  · intro k hk
    rw [mem_queueOps_iff _ (Event.queueAdd k) rfl, hq] at hk
    simp at hk
  · intro k hk
    rw [mem_queueOps_iff _ (Event.queueForget k) rfl, hq] at hk
    simp at hk

/-- C3, evaluated on a pass whose lister fails. -/
theorem processNextWorkItem_error_path_witness :
    (process demoListerErrorController "root|ws" []).ret = (false, some "cache unavailable") ∧
    queueOps (processNextWorkItem demoListerErrorController []).events =
      [Event.queueGet, Event.queueAddRateLimited "root|ws", Event.queueDone "root|ws"] ∧
    (processNextWorkItem demoListerErrorController []).ret = true ∧
    (processNextWorkItem demoListerErrorController []).world =
      ["AddRateLimited root|ws", "Done root|ws"] :=
  have h := processNextWorkItem_error_path demoListerErrorController [] [] "root|ws" false
    "cache unavailable" (by decide) (by decide)
  ⟨by decide, h.1, h.2.2.2.2.1, h.2.2.2.2.2.trans (by decide)⟩

/-- C4: when `Get` returns a key, `processNextWorkItem` calls `Forget(key)` if and only if
`process` returns no error and no requeue request. In that case the queue calls after
`Get` are exactly `Forget(key)` then `Done(key)`, both are applied in this order to the
queue as `process` left it, and the failure count of the key is back at zero. On the error
path and on the requeue path no `Forget` is called for any key and the queue is left by
`AddRateLimited(key)`, respectively `Add(key)`, followed by `Done(key)`: the failure count
of the key is advanced by one on the error path and unchanged on the requeue path. -/
theorem processNextWorkItem_forget_iff (w w1 : W) (key : String)
    (hget : c.queueGet w = ((key, false), w1)) :
    (Event.queueForget key ∈ (processNextWorkItem c w).events ↔
        (process c key w1).ret = (false, none)) ∧
      ((process c key w1).ret = (false, none) →
        queueOps (processNextWorkItem c w).events =
          [Event.queueGet, Event.queueForget key, Event.queueDone key] ∧
        (∀ n, numRequeues key (processNextWorkItem c w).events n = 0) ∧
        (processNextWorkItem c w).world =
          c.queueDone (c.queueForget (process c key w1).world key) key) ∧
      (∀ rq err, (process c key w1).ret = (rq, some err) →
        (∀ k, Event.queueForget k ∉ (processNextWorkItem c w).events) ∧
        (∀ n, numRequeues key (processNextWorkItem c w).events n = n + 1) ∧
        (processNextWorkItem c w).world =
          c.queueDone (c.queueAddRateLimited (process c key w1).world key) key) ∧
      ((process c key w1).ret = (true, none) →
        (∀ k, Event.queueForget k ∉ (processNextWorkItem c w).events) ∧
        (∀ n, numRequeues key (processNextWorkItem c w).events n = n) ∧
        (processNextWorkItem c w).world =
          c.queueDone (c.queueAdd (process c key w1).world key) key) := by
  have hnum : ∀ (tail : List (Event M S T E)) (n : Nat),
      numRequeues key (Event.queueGet :: (process c key w1).events ++ tail) n =
        numRequeues key tail n := by
    intro tail n
    rw [show Event.queueGet :: (process c key w1).events ++ tail =
      [Event.queueGet] ++ ((process c key w1).events ++ tail) from rfl,
      numRequeues_append, numRequeues_append,
      numRequeues_of_no_queueOps key _ (process_not_queueOp c key w1)]
    rfl
  have herr : ∀ rq err, (process c key w1).ret = (rq, some err) →
      (∀ k, Event.queueForget k ∉ (processNextWorkItem c w).events) ∧
      (∀ n, numRequeues key (processNextWorkItem c w).events n = n + 1) ∧
      (processNextWorkItem c w).world =
        c.queueDone (c.queueAddRateLimited (process c key w1).world key) key := by
    intro rq err hp
    obtain ⟨_, hw, hev⟩ := processNextWorkItem_of_error c w w1 key rq err hget hp
    refine ⟨?_, ?_, hw⟩
    · intro k hk
      rw [mem_queueOps_iff _ (Event.queueForget k) rfl, hev, queueOps_pass] at hk
      simp [queueOps, Event.isQueueOp] at hk
    · intro n
      rw [hev, hnum]
      simp [numRequeues]
  have hreq : (process c key w1).ret = (true, none) →
      (∀ k, Event.queueForget k ∉ (processNextWorkItem c w).events) ∧
      (∀ n, numRequeues key (processNextWorkItem c w).events n = n) ∧
      (processNextWorkItem c w).world =
        c.queueDone (c.queueAdd (process c key w1).world key) key := by
    intro hp
    obtain ⟨_, hw, hev⟩ := processNextWorkItem_of_requeue c w w1 key hget hp
    refine ⟨?_, ?_, hw⟩
    · intro k hk
      rw [mem_queueOps_iff _ (Event.queueForget k) rfl, hev, queueOps_pass] at hk
      simp [queueOps, Event.isQueueOp] at hk
    · intro n
      rw [hev, hnum]
      simp [numRequeues]
  have hok : (process c key w1).ret = (false, none) →
      queueOps (processNextWorkItem c w).events =
          [Event.queueGet, Event.queueForget key, Event.queueDone key] ∧
        (∀ n, numRequeues key (processNextWorkItem c w).events n = 0) ∧
        (processNextWorkItem c w).world =
          c.queueDone (c.queueForget (process c key w1).world key) key := by
    intro hp
    obtain ⟨_, hw, hev⟩ := processNextWorkItem_of_success c w w1 key hget hp
    refine ⟨by rw [hev, queueOps_pass]; rfl, ?_, hw⟩
    intro n
    rw [hev, hnum]
    simp [numRequeues]
  refine ⟨⟨?_, ?_⟩, hok, herr, hreq⟩
  · intro hmem
    rcases hret : (process c key w1).ret with ⟨rq, _ | err⟩
    · cases rq
      · rfl
      · exact absurd hmem ((hreq hret).1 key)
    · exact absurd hmem ((herr rq err hret).1 key)
  · intro hp
    rw [mem_queueOps_iff _ (Event.queueForget key) rfl, (hok hp).1]
    simp

/-- C4, evaluated on a successful pass of the demo controller. -/
theorem processNextWorkItem_forget_iff_witness :
    (Event.queueForget "root|ws" ∈ (processNextWorkItem demoSuccessController []).events ↔
      (process demoSuccessController "root|ws" []).ret = (false, none)) ∧
    queueOps (processNextWorkItem demoSuccessController []).events =
      [Event.queueGet, Event.queueForget "root|ws", Event.queueDone "root|ws"] ∧
    (processNextWorkItem demoSuccessController []).world = ["Forget root|ws", "Done root|ws"] :=
  have h := processNextWorkItem_forget_iff demoSuccessController [] [] "root|ws" (by decide)
  ⟨h.1, (h.2.1 (by decide)).1, (h.2.1 (by decide)).2.2.trans (by decide)⟩

end Settle

/-! ## One reconciliation pass -/

section Process

variable (c : Controller M S T E W U G)

/-- C5: for a well-formed key whose workspace the lister cannot return, `process` makes no
call but the lister read. If the error is NotFound it returns `(false, nil)`, so neither
reconciler and no commit is invoked, and `processNextWorkItem` then calls `Forget(key)`
and `Done(key)` and nothing else: no `Add`, no `AddRateLimited`, and the queue is left as
`Forget(key)` followed by `Done(key)` turn it. Any other lister error is returned as the
error of `process`. -/
theorem process_lister_error (w w1 : W) (key parent ns name : String) (err : E)
    (hget : c.queueGet w = ((key, false), w1))
    (hsplit : c.SplitMetaClusterNamespaceKey key = .ok (parent, ns, name))
    (hlist : c.workspaceListerGet w1 parent name = .error err) :
    (process c key w1).events = [Event.listerGet parent name] ∧
      (process c key w1).world = w1 ∧
      (c.IsNotFound err = true →
        (process c key w1).ret = (false, none) ∧
        (processNextWorkItem c w).events =
          [Event.queueGet, Event.listerGet parent name, Event.queueForget key,
           Event.queueDone key] ∧
        Event.queueDone key ∈ (processNextWorkItem c w).events ∧
        (∀ k, Event.queueAdd k ∉ (processNextWorkItem c w).events) ∧
        (∀ k, Event.queueAddRateLimited k ∉ (processNextWorkItem c w).events) ∧
        (processNextWorkItem c w).world = c.queueDone (c.queueForget w1 key) key) ∧
      (c.IsNotFound err = false → (process c key w1).ret = (false, some err)) := by
  have hp : process c key w1 =
      if c.IsNotFound err then
        { ret := (false, none), world := w1, events := [Event.listerGet parent name] }
      else { ret := (false, some err), world := w1, events := [Event.listerGet parent name] } := by
    simp only [process, hsplit, hlist]
  refine ⟨?_, ?_, ?_, ?_⟩
  · rw [hp]; split <;> rfl
  · rw [hp]; split <;> rfl
  · intro hnf
    have hp2 : process c key w1 =
        { ret := (false, none), world := w1, events := [Event.listerGet parent name] } := by
      rw [hp, hnf]; rfl
    obtain ⟨_, hw, hev⟩ := processNextWorkItem_of_success c w w1 key hget (by rw [hp2])
    rw [hp2] at hev hw
    refine ⟨by rw [hp2], by simpa using hev, ?_, ?_, ?_, hw⟩
    · rw [hev]; simp
    · intro k hk; rw [hev] at hk; simp at hk
    · intro k hk; rw [hev] at hk; simp at hk
  · intro hnf
    rw [hp, hnf]; rfl

/-- C5, evaluated on a pass whose lister reports NotFound. -/
theorem process_lister_error_witness :
    (process demoNotFoundController "root|ws" []).ret = (false, none) ∧
    (processNextWorkItem demoNotFoundController []).events =
      [Event.queueGet, Event.listerGet "root" "ws", Event.queueForget "root|ws",
       Event.queueDone "root|ws"] ∧
    (processNextWorkItem demoNotFoundController []).world = ["Forget root|ws", "Done root|ws"] :=
  have h := (process_lister_error demoNotFoundController [] [] "root|ws" "root" "" "ws"
    "not found" (by decide) rfl rfl).2.2.1 (by decide)
  ⟨h.1, h.2.1, h.2.2.2.2.2.trans (by decide)⟩

/-- C6: when the status reconciler returns `StopAndRequeue` without error, `process` has
called the lister and the status reconciler and nothing else (no commit, no spec
reconciler) and returns `(true, nil)`; `processNextWorkItem` then calls `Add(key)` and
`Done(key)`, never `AddRateLimited` or `Forget`, the queue is left as `Add(key)` followed
by `Done(key)` turn the state the status reconciler left, and the failure count of the key
is what it was. -/
theorem process_status_stop_and_requeue (w w1 w2 : W) (key parent ns name : String)
    (cached ws1 : Workspace M S T)
    (hget : c.queueGet w = ((key, false), w1))
    (hsplit : c.SplitMetaClusterNamespaceKey key = .ok (parent, ns, name))
    (hlist : c.workspaceListerGet w1 parent name = .ok cached)
    (hstatus : c.statusUpdaterReconcile w1 cached.DeepCopy =
      ((ws1, reconcileStatus.reconcileStatusStopAndRequeue, none), w2)) :
    (process c key w1).ret = (true, none) ∧
      (process c key w1).events =
        [Event.listerGet parent name, Event.statusReconcile cached.DeepCopy] ∧
      (processNextWorkItem c w).events =
        [Event.queueGet, Event.listerGet parent name, Event.statusReconcile cached.DeepCopy,
         Event.queueAdd key, Event.queueDone key] ∧
      (∀ k, Event.queueAddRateLimited k ∉ (processNextWorkItem c w).events) ∧
      (∀ k, Event.queueForget k ∉ (processNextWorkItem c w).events) ∧
      (∀ n, numRequeues key (processNextWorkItem c w).events n = n) ∧
      (process c key w1).world = w2 ∧
      (processNextWorkItem c w).world = c.queueDone (c.queueAdd w2 key) key ∧
      (processNextWorkItem c w).ret = true := by
  have hp : process c key w1 =
      { ret := (true, none), world := w2,
        events := [Event.listerGet parent name, Event.statusReconcile cached.DeepCopy] } := by
    simp only [process, hsplit, hlist, hstatus, if_true]
  obtain ⟨hr, hw, hev⟩ := processNextWorkItem_of_requeue c w w1 key hget (by rw [hp])
  rw [hp] at hev hw
  have hev2 : (processNextWorkItem c w).events =
      [Event.queueGet, Event.listerGet parent name, Event.statusReconcile cached.DeepCopy,
       Event.queueAdd key, Event.queueDone key] := by simpa using hev
  refine ⟨by rw [hp], by rw [hp], hev2, ?_, ?_, ?_, by rw [hp], hw, hr⟩
  · intro k hk; rw [hev2] at hk; simp at hk
  · intro k hk; rw [hev2] at hk; simp at hk
  · intro n; rw [hev2]; simp [numRequeues]

/-- C6, evaluated on the requeue pass of the demo controller. -/
theorem process_status_stop_and_requeue_witness :
    (process demoRequeueController "root|ws" []).ret = (true, none) ∧
    (processNextWorkItem demoRequeueController []).events =
      [Event.queueGet, Event.listerGet "root" "ws", Event.statusReconcile demoWorkspace.DeepCopy,
       Event.queueAdd "root|ws", Event.queueDone "root|ws"] ∧
    (processNextWorkItem demoRequeueController []).world = ["Add root|ws", "Done root|ws"] :=
  have h := process_status_stop_and_requeue demoRequeueController [] [] [] "root|ws" "root" ""
    "ws" demoWorkspace demoWorkspace (by decide) rfl rfl rfl
  ⟨h.1, h.2.2.1, h.2.2.2.2.2.2.2.1.trans (by decide)⟩

/-- C7: when the status reconciler returns `Continue` without error, the first three calls
of `process` are the lister read, the status reconciler and the status commit, so the
status commit comes before any call of the spec reconciler. If that commit returns an
error, `process` returns this error and makes no further call: no spec reconciler, no spec
commit. If it succeeds, the next call is the spec reconciler on the working copy. -/
theorem process_status_commit_first (w1 w2 : W) (key parent ns name : String)
    (cached ws1 : Workspace M S T)
    (hsplit : c.SplitMetaClusterNamespaceKey key = .ok (parent, ns, name))
    (hlist : c.workspaceListerGet w1 parent name = .ok cached)
    (hstatus : c.statusUpdaterReconcile w1 cached.DeepCopy =
      ((ws1, reconcileStatus.reconcileStatusContinue, none), w2)) :
    (∃ rest, (process c key w1).events =
        [Event.listerGet parent name, Event.statusReconcile cached.DeepCopy,
         Event.commit
           { ObjectMeta := cached.ObjectMeta, Spec := cached.Spec, Status := cached.Status }
           { ObjectMeta := ws1.ObjectMeta, Spec := cached.Spec, Status := ws1.Status }] ++ rest ∧
        (∀ e ∈ rest, e = Event.specReconcile ws1 ∨ ∃ o n, e = Event.commit o n) ∧
        ((c.commit w2
            { ObjectMeta := cached.ObjectMeta, Spec := cached.Spec, Status := cached.Status }
            { ObjectMeta := ws1.ObjectMeta, Spec := cached.Spec, Status := ws1.Status }).1 = none →
          rest.head? = some (Event.specReconcile ws1))) ∧
      (∀ err w3, c.commit w2
          { ObjectMeta := cached.ObjectMeta, Spec := cached.Spec, Status := cached.Status }
          { ObjectMeta := ws1.ObjectMeta, Spec := cached.Spec, Status := ws1.Status } =
            (some err, w3) →
        (process c key w1).ret = (false, some err) ∧
        (process c key w1).world = w3 ∧
        (process c key w1).events =
          [Event.listerGet parent name, Event.statusReconcile cached.DeepCopy,
           Event.commit
             { ObjectMeta := cached.ObjectMeta, Spec := cached.Spec, Status := cached.Status }
             { ObjectMeta := ws1.ObjectMeta, Spec := cached.Spec, Status := ws1.Status }]) := by
  constructor
  · simp only [process, hsplit, hlist, hstatus]
    rw [if_neg (by decide)]
    repeat' split
    all_goals simp_all
  · intro err w3 hc
    simp only [process, hsplit, hlist, hstatus, hc]
    rw [if_neg (by decide)]
    exact ⟨rfl, rfl, rfl⟩

/-- C7, evaluated on a pass whose status commit is rejected. -/
theorem process_status_commit_first_witness :
    (process demoCommitConflictController "root|ws" []).ret = (false, some "conflict") ∧
    (process demoCommitConflictController "root|ws" []).events =
      [Event.listerGet "root" "ws", Event.statusReconcile demoWorkspace.DeepCopy,
       Event.commit { ObjectMeta := "ws", Spec := 1, Status := 2 }
         { ObjectMeta := "ws", Spec := 1, Status := 2 }] :=
  have h := (process_status_commit_first demoCommitConflictController [] [] "root|ws" "root" ""
    "ws" demoWorkspace demoWorkspace rfl rfl rfl).2 "conflict" [] rfl
  ⟨h.1, h.2.2⟩

/-- A commit call is among the events exactly when its arguments are among `commits`. -/
theorem mem_commits_iff (es : List (Event M S T E)) (o n : workspaceResource M S T) :
    Event.commit o n ∈ es ↔ (o, n) ∈ commits es := by
  induction es with
  | nil => simp [commits]
  | cons e es ih => cases e <;> simp [commits, ih]

/-- C8: every commit call of `process` works on one sub-resource. The first commit (the
status commit) passes the spec of the snapshot as both the old and the new spec; the
second commit (the spec commit) passes the status of the snapshot as both the old and the
new status; there is no third commit. Hence, whatever the reconcilers do, no commit call
carries a spec difference together with a status difference. -/
theorem process_commit_one_subresource (w1 : W) (key parent ns name : String)
    (cached : Workspace M S T)
    (hsplit : c.SplitMetaClusterNamespaceKey key = .ok (parent, ns, name))
    (hlist : c.workspaceListerGet w1 parent name = .ok cached) :
    (∀ i o n, (commits (process c key w1).events)[i]? = some (o, n) →
        (i = 0 ∧ o.Spec = cached.Spec ∧ n.Spec = cached.Spec) ∨
        (i = 1 ∧ o.Status = cached.Status ∧ n.Status = cached.Status)) ∧
      (∀ o n, Event.commit o n ∈ (process c key w1).events →
        ¬ (o.Spec ≠ n.Spec ∧ o.Status ≠ n.Status)) := by
  have hidx : ∀ i o n, (commits (process c key w1).events)[i]? = some (o, n) →
      (i = 0 ∧ o.Spec = cached.Spec ∧ n.Spec = cached.Spec) ∨
      (i = 1 ∧ o.Status = cached.Status ∧ n.Status = cached.Status) := by
    intro i o n
    simp only [process, hsplit, hlist]
    repeat' split
    all_goals
      simp only [commits]
      rcases i with _ | _ | i <;> simp <;> rintro rfl rfl <;> simp
  refine ⟨hidx, ?_⟩
  intro o n hmem
  obtain ⟨i, hi⟩ := List.mem_iff_getElem?.mp ((mem_commits_iff _ o n).mp hmem)
  rcases hidx i o n hi with ⟨_, ho, hn⟩ | ⟨_, ho, hn⟩
  · exact fun h => h.1 (ho.trans hn.symm)
  · exact fun h => h.2 (ho.trans hn.symm)

/-- C8, evaluated on a pass whose reconcilers write outside their own sub-resource: the
spec commit carries a spec difference and no status difference. -/
theorem process_commit_one_subresource_witness :
    commits (process demoMetaController "root|ws" []).events =
      [({ ObjectMeta := "ws", Spec := 1, Status := 2 },
        { ObjectMeta := "ws+annotated", Spec := 1, Status := 7 }),
       (demoSpecCommitOld, demoSpecCommitNew)] ∧
    ¬ (demoSpecCommitOld.Spec ≠ demoSpecCommitNew.Spec ∧
        demoSpecCommitOld.Status ≠ demoSpecCommitNew.Status) :=
  ⟨by decide,
    (process_commit_one_subresource demoMetaController [] "root|ws" "root" "" "ws"
      demoWorkspace rfl rfl).2 demoSpecCommitOld demoSpecCommitNew (by decide)⟩

/-- C9, as stated, fails: when the status reconciler also changes the metadata of the
working copy, the status commit is called with an old and a new resource whose
`ObjectMeta` differ. -/
theorem process_status_commit_metadata_differs :
    (demoMetaController.statusUpdaterReconcile [] demoWorkspace.DeepCopy).1 =
      ({ ObjectMeta := "ws+annotated", Spec := 1, Status := 7 },
        reconcileStatus.reconcileStatusContinue, none) ∧
    (commits (process demoMetaController "root|ws" []).events)[0]? =
      some ({ ObjectMeta := "ws", Spec := 1, Status := 2 },
            { ObjectMeta := "ws+annotated", Spec := 1, Status := 7 }) ∧
    ¬ (∀ o n, Event.commit o n ∈ (process demoMetaController "root|ws" []).events →
        o.ObjectMeta = n.ObjectMeta) := by
  refine ⟨by decide, by decide, ?_⟩
  intro h
  have h2 := h { ObjectMeta := "ws", Spec := 1, Status := 2 }
    { ObjectMeta := "ws+annotated", Spec := 1, Status := 7 } (by decide)
  exact absurd h2 (by decide)

/-- C9 (amended): in the spec commit (the second commit of a pass) the old and the new
resource carry the same `ObjectMeta`, whatever the reconcilers do. In the status commit
(the first) the old resource carries the `ObjectMeta` of the snapshot and the new resource
the `ObjectMeta` of the working copy as the status reconciler left it; so when the status
reconciler leaves the metadata as it was, every commit of the pass has equal old and new
`ObjectMeta`. -/
theorem process_commit_metadata (w1 w2 : W) (key parent ns name : String)
    (cached ws1 : Workspace M S T) (st : reconcileStatus) (e : Option E)
    (hsplit : c.SplitMetaClusterNamespaceKey key = .ok (parent, ns, name))
    (hlist : c.workspaceListerGet w1 parent name = .ok cached)
    (hstatus : c.statusUpdaterReconcile w1 cached.DeepCopy = ((ws1, st, e), w2)) :
    (∀ i o n, (commits (process c key w1).events)[i]? = some (o, n) →
        (i = 0 ∧ o.ObjectMeta = cached.ObjectMeta ∧ n.ObjectMeta = ws1.ObjectMeta) ∨
        (i = 1 ∧ o.ObjectMeta = n.ObjectMeta)) ∧
      (ws1.ObjectMeta = cached.ObjectMeta →
        ∀ o n, Event.commit o n ∈ (process c key w1).events → o.ObjectMeta = n.ObjectMeta) := by
  have hidx : ∀ i o n, (commits (process c key w1).events)[i]? = some (o, n) →
      (i = 0 ∧ o.ObjectMeta = cached.ObjectMeta ∧ n.ObjectMeta = ws1.ObjectMeta) ∨
      (i = 1 ∧ o.ObjectMeta = n.ObjectMeta) := by
    intro i o n
    simp only [process, hsplit, hlist, hstatus]
    repeat' split
    all_goals
      simp only [commits]
      rcases i with _ | _ | i <;> simp <;> rintro rfl rfl <;> simp_all
  refine ⟨hidx, ?_⟩
  intro hmeta o n hmem
  obtain ⟨i, hi⟩ := List.mem_iff_getElem?.mp ((mem_commits_iff _ o n).mp hmem)
  rcases hidx i o n hi with ⟨_, ho, hn⟩ | ⟨_, h⟩
  · rw [ho, hn, hmeta]
  · exact h

/-- C9 (amended), evaluated on a pass whose status reconciler leaves the metadata alone
while the spec reconciler changes it: the spec commit has equal old and new `ObjectMeta`. -/
theorem process_commit_metadata_witness :
    commits (process demoSpecOnlyController "root|ws" []).events =
      [({ ObjectMeta := "ws", Spec := 1, Status := 2 },
        { ObjectMeta := "ws", Spec := 1, Status := 2 }),
       (demoSpecOnlyCommitOld, demoSpecOnlyCommitNew)] ∧
    demoSpecOnlyCommitOld.ObjectMeta = demoSpecOnlyCommitNew.ObjectMeta :=
  ⟨by decide,
    (process_commit_metadata demoSpecOnlyController [] [] "root|ws" "root" "" "ws" demoWorkspace
      demoWorkspace reconcileStatus.reconcileStatusContinue none rfl rfl rfl).2 rfl
      demoSpecOnlyCommitOld demoSpecOnlyCommitNew (by decide)⟩

end Process

/-! ## Routing of secondary-object events -/

section Routing

variable (c : Controller M S T E W U G)

/-- The queue calls of the enqueue loop: one `Add` for every workspace whose key can be
computed, in the order of the list. -/
theorem enqueueEach_queueOps (suffix : String) (wss : List (Workspace M S T)) (w : W) :
    queueOps (enqueueEach c suffix wss w).events =
      (wss.filterMap fun ws =>
        (c.MetaClusterNamespaceKeyFunc (Object.workspace ws)).toOption).map Event.queueAdd := by
  induction wss generalizing w with
  | nil => rfl
  | cons ws rest ih =>
    have h := ih (enqueueWorkspace c (Object.workspace ws) suffix w).world
    unfold queueOps at h ⊢
    simp only [enqueueEach, List.filter_append, h]
    unfold enqueueWorkspace
    cases hk : c.MetaClusterNamespaceKeyFunc (Object.workspace ws) <;>
      simp [List.filterMap_cons, Except.toOption, Event.isQueueOp, hk]

/-- The loop only calls `Add` and `HandleError`. -/
theorem enqueueEach_events (suffix : String) (wss : List (Workspace M S T)) (w : W)
    (e : Event M S T E) (he : e ∈ (enqueueEach c suffix wss w).events) :
    (∃ k, e = Event.queueAdd k) ∨ ∃ err, e = Event.handleError err := by
  induction wss generalizing w with
  | nil => simp [enqueueEach] at he
  | cons ws rest ih =>
    simp only [enqueueEach, List.mem_append] at he
    rcases he with he | he
    · unfold enqueueWorkspace at he
      cases hk : c.MetaClusterNamespaceKeyFunc (Object.workspace ws) <;> simp [hk] at he
      · exact Or.inr ⟨_, he⟩
      · exact Or.inl ⟨_, he⟩
    · exact ih _ he

/-- The world after the enqueue loop: `Add` applied, in the order of the list, for every
workspace whose key can be computed. -/
theorem enqueueEach_world (suffix : String) (wss : List (Workspace M S T)) (w : W) :
    (enqueueEach c suffix wss w).world =
      (wss.filterMap fun ws =>
        (c.MetaClusterNamespaceKeyFunc (Object.workspace ws)).toOption).foldl c.queueAdd w := by
  induction wss generalizing w with
  | nil => rfl
  | cons ws rest ih =>
    simp only [enqueueEach, ih]
    unfold enqueueWorkspace
    cases hk : c.MetaClusterNamespaceKeyFunc (Object.workspace ws) <;>
      simp [List.filterMap_cons, Except.toOption, hk]

/-- C10, as stated, fails for an update that is a resync: old and new object are the same
cowboy `joe` at the same resourceVersion, the index returns two workspaces for the
identity value of `joe`, and the registered handler adds no key and leaves the queue
untouched. -/
theorem registered_update_handler_drops_resync :
    demoSuccessController.indexWorkspaceByMountObjectValue "cowboys" "joe" =
      .ok "cowboys/joe" ∧
    demoSuccessController.ByIndex [] "WorkspaceMountsReference" "cowboys/joe" =
      .ok [{ ObjectMeta := "ws", Spec := 0, Status := 0 },
           { ObjectMeta := "other", Spec := 0, Status := 0 }] ∧
    demoResourceVersion (Object.unstructured "joe") = some "8" ∧
    ((registeredDynamicEventHandler demoResourceVersion demoSuccessController).OnUpdate
        "cowboys" (Object.unstructured "joe") (Object.unstructured "joe") []).map
      (fun r => (r.events, r.world)) = some ([], []) ∧
    ((registeredDynamicEventHandler demoResourceVersion demoSuccessController).OnAdd
        "cowboys" (Object.unstructured "joe") []).map (fun r => (r.events, r.world)) =
      some ([Event.byIndex "WorkspaceMountsReference" "cowboys/joe", Event.queueAdd "root|ws",
             Event.queueAdd "root|other"], ["Add root|ws", "Add root|other"]) :=
  ⟨rfl, rfl, rfl, by decide, by decide⟩

/-- C10 (amended): the handler registered on the dynamic informers is the handler set
wrapped in `WithoutGVRSyncs`. An add, a delete, and an update whose old and new object
carry different resourceVersions run `enqueuePotentiallyMountResource` on the delivered
(new) object; a delete delivered as a `DeletedFinalStateUnknown` marker wrapping `o` is
handled as the plain delete of `o`; an update whose old and new object carry the same
resourceVersion makes no call and leaves the queue as it is. When the function runs, with
`key` the identity value computed from `(gvr, o)` and `wss` the workspaces the index
returns for it, the queue calls are the `Add`s of the keys of `wss`, in order, one for each
workspace whose key can be computed (one per workspace when all keys can be computed),
they are applied to the queue in that order, and every call made is the index read, an
`Add` or an error report. When `wss` is empty, or the identity value or the index read
fails, no queue call is made and the world is unchanged. -/
theorem enqueuePotentiallyMountResource_routing
    (resourceVersion : Object M S T U → Option String) (gvr : G) (o : U) (w : W)
    (prev : Object M S T U) (tombstoneKey : String) :
    (registeredDynamicEventHandler resourceVersion c).OnAdd gvr (Object.unstructured o) w =
        enqueuePotentiallyMountResource c gvr (Object.unstructured o) w ∧
      (∀ oldVersion newVersion, resourceVersion prev = some oldVersion →
        resourceVersion (Object.unstructured o) = some newVersion →
        newVersion ≠ oldVersion →
        (registeredDynamicEventHandler resourceVersion c).OnUpdate gvr prev
            (Object.unstructured o) w =
          enqueuePotentiallyMountResource c gvr (Object.unstructured o) w) ∧
      (∀ version, resourceVersion prev = some version →
        resourceVersion (Object.unstructured o) = some version →
        (registeredDynamicEventHandler resourceVersion c).OnUpdate gvr prev
            (Object.unstructured o) w =
          some { ret := (), world := w, events := [] }) ∧
      (registeredDynamicEventHandler resourceVersion c).OnDelete gvr (Object.unstructured o) w =
        enqueuePotentiallyMountResource c gvr (Object.unstructured o) w ∧
      (registeredDynamicEventHandler resourceVersion c).OnDelete gvr
          (Object.deletedFinalStateUnknown tombstoneKey (Object.unstructured o)) w =
        (registeredDynamicEventHandler resourceVersion c).OnDelete gvr
          (Object.unstructured o) w ∧
      (∀ key wss, c.indexWorkspaceByMountObjectValue gvr o = .ok key →
        c.ByIndex w c.workspaceMountsReferenceIndex key = .ok wss →
        ∃ r, enqueuePotentiallyMountResource c gvr (Object.unstructured o) w = some r ∧
          queueOps r.events =
            (wss.filterMap fun ws =>
              (c.MetaClusterNamespaceKeyFunc (Object.workspace ws)).toOption).map
                Event.queueAdd ∧
          r.world =
            (wss.filterMap fun ws =>
              (c.MetaClusterNamespaceKeyFunc (Object.workspace ws)).toOption).foldl
                c.queueAdd w ∧
          (∀ keyOf : Workspace M S T → String,
            (∀ ws ∈ wss, c.MetaClusterNamespaceKeyFunc (Object.workspace ws) = .ok (keyOf ws)) →
            queueOps r.events = (wss.map fun ws => Event.queueAdd (keyOf ws)) ∧
            r.world = (wss.map keyOf).foldl c.queueAdd w) ∧
          (∀ e ∈ r.events, e = Event.byIndex c.workspaceMountsReferenceIndex key ∨
            (∃ k, e = Event.queueAdd k) ∨ ∃ err, e = Event.handleError err) ∧
          (wss = [] → queueOps r.events = [] ∧ r.world = w)) ∧
      (∀ err, c.indexWorkspaceByMountObjectValue gvr o = .error err →
        ∃ r, enqueuePotentiallyMountResource c gvr (Object.unstructured o) w = some r ∧
          queueOps r.events = [] ∧ r.world = w) ∧
      (∀ key err, c.indexWorkspaceByMountObjectValue gvr o = .ok key →
        c.ByIndex w c.workspaceMountsReferenceIndex key = .error err →
        ∃ r, enqueuePotentiallyMountResource c gvr (Object.unstructured o) w = some r ∧
          queueOps r.events = [] ∧ r.world = w) := by
  have hkeys : ∀ (wss : List (Workspace M S T)) (keyOf : Workspace M S T → String),
      (∀ ws ∈ wss, c.MetaClusterNamespaceKeyFunc (Object.workspace ws) = .ok (keyOf ws)) →
      (wss.filterMap fun ws =>
        (c.MetaClusterNamespaceKeyFunc (Object.workspace ws)).toOption) = wss.map keyOf := by
    intro wss keyOf hall
    induction wss with
    | nil => rfl
    | cons ws rest ih =>
      have h1 := hall ws (List.mem_cons_self ws rest)
      have h2 := ih fun x hx => hall x (List.mem_cons_of_mem ws hx)
      rw [List.filterMap_cons, h1, List.map_cons, ← h2]
      rfl
  refine ⟨rfl, ?_, ?_, rfl, rfl, ?_, ?_, ?_⟩
  · intro oldVersion newVersion hold hnew hne
    simp only [registeredDynamicEventHandler, WithoutGVRSyncs, GVREventHandlerFuncs.OnUpdate,
      hold, hnew, if_neg hne, dynamicEventHandlerFuncs, dynamicUpdateFunc]
  · intro version hold hnew
    simp only [registeredDynamicEventHandler, WithoutGVRSyncs, GVREventHandlerFuncs.OnUpdate,
      hold, hnew, if_true]
  · intro key wss hkey hidx
    have hq : queueOps (Event.byIndex c.workspaceMountsReferenceIndex key ::
          (enqueueEach c (", because of mount resource: " ++ key) wss w).events) =
        (wss.filterMap fun ws =>
          (c.MetaClusterNamespaceKeyFunc (Object.workspace ws)).toOption).map
            Event.queueAdd := by
      have h := enqueueEach_queueOps c (", because of mount resource: " ++ key) wss w
      unfold queueOps at h ⊢
      simp only [List.filter_cons, Event.isQueueOp, h]
      simp
    refine ⟨{ ret := (),
              world := (enqueueEach c (", because of mount resource: " ++ key) wss w).world,
              events := Event.byIndex c.workspaceMountsReferenceIndex key ::
                (enqueueEach c (", because of mount resource: " ++ key) wss w).events },
      by simp only [enqueuePotentiallyMountResource, hkey, hidx], hq,
      enqueueEach_world c _ wss w, ?_, ?_, ?_⟩
    · intro keyOf hall
      refine ⟨?_, ?_⟩
      · rw [hq, hkeys wss keyOf hall, List.map_map]
        rfl
      · show (enqueueEach c (", because of mount resource: " ++ key) wss w).world = _
        rw [enqueueEach_world, hkeys wss keyOf hall]
    · intro e he
      simp only [List.mem_cons] at he
      rcases he with he | he
      · exact Or.inl he
      · exact Or.inr (enqueueEach_events c _ wss w e he)
    · rintro rfl
      exact ⟨rfl, rfl⟩
  · intro err hkey
    exact ⟨{ ret := (), world := w, events := [Event.handleError err] },
      by simp only [enqueuePotentiallyMountResource, hkey], rfl, rfl⟩
  · intro key err hkey hidx
    exact ⟨{ ret := (), world := w,
             events := [Event.byIndex c.workspaceMountsReferenceIndex key,
                        Event.handleError err] },
      by simp only [enqueuePotentiallyMountResource, hkey, hidx], rfl, rfl⟩

/-- C10 (amended), evaluated on the demo controller: an update of `joe` from version 7 to
version 8, and a delete of `joe` delivered as a marker, each add the keys of the two
workspaces the index returns for `joe`. -/
theorem enqueuePotentiallyMountResource_routing_witness :
    ((registeredDynamicEventHandler demoResourceVersion demoSuccessController).OnUpdate
        "cowboys" (Object.unstructured "joe-before") (Object.unstructured "joe") []).map
      (fun r => (r.events, r.world)) =
      some ([Event.byIndex "WorkspaceMountsReference" "cowboys/joe", Event.queueAdd "root|ws",
             Event.queueAdd "root|other"], ["Add root|ws", "Add root|other"]) ∧
    ((registeredDynamicEventHandler demoResourceVersion demoSuccessController).OnDelete
        "cowboys"
        (Object.deletedFinalStateUnknown "root|default/joe" (Object.unstructured "joe")) []).map
      (fun r => (r.events, r.world)) =
      some ([Event.byIndex "WorkspaceMountsReference" "cowboys/joe", Event.queueAdd "root|ws",
             Event.queueAdd "root|other"], ["Add root|ws", "Add root|other"]) ∧
    (registeredDynamicEventHandler demoResourceVersion demoSuccessController).OnUpdate
        "cowboys" (Object.unstructured "joe-before") (Object.unstructured "joe") [] =
      enqueuePotentiallyMountResource demoSuccessController "cowboys"
        (Object.unstructured "joe") [] ∧
    ∃ r, enqueuePotentiallyMountResource demoSuccessController "cowboys"
        (Object.unstructured "joe") [] = some r ∧
      queueOps r.events = [Event.queueAdd "root|ws", Event.queueAdd "root|other"] ∧
      r.world = ["Add root|ws", "Add root|other"] :=
  have h := enqueuePotentiallyMountResource_routing demoSuccessController demoResourceVersion
    "cowboys" "joe" [] (Object.unstructured "joe-before") "root|default/joe"
  have hr := h.2.2.2.2.2.1 "cowboys/joe"
    [{ ObjectMeta := "ws", Spec := 0, Status := 0 },
     { ObjectMeta := "other", Spec := 0, Status := 0 }] rfl rfl
  ⟨by decide, by decide, h.2.1 "7" "8" rfl rfl (by decide),
    hr.imp fun _ x => ⟨x.1, x.2.1, x.2.2.1.trans rfl⟩⟩

end Routing

/-! ## Routing of primary-object events -/

section Primary

variable (c : Controller M S T E W U G)

/-- C11: an add event and an update event of the workspace informer both run
`enqueueWorkspace` on the delivered object (for an update the new object; the old one is
ignored). When `MetaClusterNamespaceKeyFunc` yields a key the only call made is `Add` of
that key; when it fails the error is reported and no queue call is made. No `DeleteFunc`
is registered, so a delete event makes no call at all. -/
theorem workspace_event_enqueues_key (obj prev : Object M S T U) (w : W) :
    (workspaceEventHandlerFuncs c).OnAdd obj w = enqueueWorkspace c obj "" w ∧
      (workspaceEventHandlerFuncs c).OnUpdate prev obj w = enqueueWorkspace c obj "" w ∧
      (∀ key, c.MetaClusterNamespaceKeyFunc obj = .ok key →
        (enqueueWorkspace c obj "" w).events = [Event.queueAdd key] ∧
        (enqueueWorkspace c obj "" w).world = c.queueAdd w key) ∧
      (∀ err, c.MetaClusterNamespaceKeyFunc obj = .error err →
        (enqueueWorkspace c obj "" w).events = [Event.handleError err] ∧
        queueOps (enqueueWorkspace c obj "" w).events = [] ∧
        (enqueueWorkspace c obj "" w).world = w) ∧
      (workspaceEventHandlerFuncs c).DeleteFunc.isNone = true ∧
      ((workspaceEventHandlerFuncs c).OnDelete obj w).events = [] ∧
      ((workspaceEventHandlerFuncs c).OnDelete obj w).world = w := by
  refine ⟨rfl, rfl, ?_, ?_, rfl, rfl, rfl⟩
  · intro key hk
    simp only [enqueueWorkspace, hk, and_self]
  · intro err hk
    simp only [enqueueWorkspace, hk, true_and]
    exact ⟨rfl, trivial⟩

/-- C11, evaluated on the demo controller: an update from workspace `old` to workspace
`ws` adds the key of `ws`, and an object without metadata adds nothing. -/
theorem workspace_event_enqueues_key_witness :
    ((workspaceEventHandlerFuncs demoSuccessController).OnUpdate
        (Object.workspace { ObjectMeta := "old", Spec := 0, Status := 0 })
        (Object.workspace demoWorkspace) []).events = [Event.queueAdd "root|ws"] ∧
    (enqueueWorkspace demoSuccessController (Object.workspace demoWorkspace) "" []).events =
      [Event.queueAdd "root|ws"] ∧
    queueOps (enqueueWorkspace demoSuccessController (Object.unstructured "joe") "" []).events =
      [] :=
  have h := workspace_event_enqueues_key demoSuccessController (Object.workspace demoWorkspace)
    (Object.workspace { ObjectMeta := "old", Spec := 0, Status := 0 }) []
  have h2 := workspace_event_enqueues_key demoSuccessController (Object.unstructured "joe")
    (Object.unstructured "joe") []
  ⟨by decide, (h.2.2.1 "root|ws" rfl).1, (h2.2.2.2.1 "object has no meta" rfl).2.1⟩

end Primary

/-! ## Target of the mount-object lookup -/

section Lookup

/-- The separator does not occur exactly when the cut fails. -/
theorem cutAt_eq_none_iff (sep : Char) (l : List Char) : cutAt sep l = none ↔ sep ∉ l := by
  induction l with
  | nil => simp [cutAt]
  | cons ch rest ih =>
    unfold cutAt
    by_cases h : ch = sep
    · simp [h]
    · cases hc : cutAt sep rest with
      | none => simpa [h, hc, Ne.symm h] using ih.mp hc
      | some p =>
        have : sep ∈ rest := by
          by_contra hn
          rw [ih.mpr hn] at hc
          exact Option.noConfusion hc
        simp [h, this]

/-- A successful cut splits the text at the first separator. -/
theorem cutAt_eq_some (sep : Char) (l before after : List Char)
    (h : cutAt sep l = some (before, after)) :
    l = before ++ sep :: after ∧ sep ∉ before := by
  induction l generalizing before after with
  | nil => simp [cutAt] at h
  | cons ch rest ih =>
    unfold cutAt at h
    by_cases hs : ch = sep
    · simp only [hs, if_true, Option.some.injEq, Prod.mk.injEq] at h
      obtain ⟨rfl, rfl⟩ := h
      simp [hs]
    · cases hc : cutAt sep rest with
      | none => simp [hs, hc] at h
      | some p =>
        obtain ⟨b, a⟩ := p
        simp only [hs, if_false, hc, Option.some.injEq, Prod.mk.injEq] at h
        obtain ⟨rfl, rfl⟩ := h
        obtain ⟨h1, h2⟩ := ih b a hc
        refine ⟨by rw [h1]; rfl, ?_⟩
        simp [h2, Ne.symm hs]

/-- C14: for every reference `ref`, `getMountObjectFunc` issues exactly one `Get`, on the
given cluster and for the name `ref.Name`. Its `Resource` is the lower-cased `Kind`
followed by `s`. When `APIVersion` contains a `/`, `Group` is the text before the first
`/` (it contains none) and `Version` the whole text after it, so that
`Group + "/" + Version` is `APIVersion`; otherwise `Group` is empty and `Version` is
`APIVersion`. The call is namespaced, with `ref.Namespace`, exactly when `ref.Namespace`
is not empty. -/
theorem getMountObjectFunc_target (ToLower : String → String)
    (dynamicGet : W → DynamicGet → Except E U × W) (w : W) (cluster : String)
    (ref : ObjectReference) :
    ∃ call : DynamicGet,
      (getMountObjectFunc ToLower dynamicGet w cluster ref).events = [call] ∧
      (getMountObjectFunc ToLower dynamicGet w cluster ref).ret = (dynamicGet w call).1 ∧
      (getMountObjectFunc ToLower dynamicGet w cluster ref).world = (dynamicGet w call).2 ∧
      call.cluster = cluster ∧ call.name = ref.Name ∧
      call.gvr.Resource = ToLower ref.Kind ++ "s" ∧
      ('/' ∈ ref.APIVersion.data →
        call.gvr.Group ++ "/" ++ call.gvr.Version = ref.APIVersion ∧
        '/' ∉ call.gvr.Group.data) ∧
      ('/' ∉ ref.APIVersion.data →
        call.gvr.Group = "" ∧ call.gvr.Version = ref.APIVersion) ∧
      (ref.Namespace ≠ "" → call.Namespace = some ref.Namespace) ∧
      (ref.Namespace = "" → call.Namespace = none) := by
  have hgvr : ∀ gvr : GroupVersionResource,
      gvr = (if (SplitN ref.APIVersion '/' 2).length = 2 then
          { Group := (SplitN ref.APIVersion '/' 2).getD 0 "",
            Version := (SplitN ref.APIVersion '/' 2).getD 1 "",
            Resource := ToLower ref.Kind ++ "s" }
        else { Group := "", Version := ref.APIVersion, Resource := ToLower ref.Kind ++ "s" }) →
      gvr.Resource = ToLower ref.Kind ++ "s" ∧
      ('/' ∈ ref.APIVersion.data →
        gvr.Group ++ "/" ++ gvr.Version = ref.APIVersion ∧ '/' ∉ gvr.Group.data) ∧
      ('/' ∉ ref.APIVersion.data → gvr.Group = "" ∧ gvr.Version = ref.APIVersion) := by
    intro gvr hg
    cases hc : cutAt '/' ref.APIVersion.data with
    | none =>
      have hno := (cutAt_eq_none_iff '/' _).mp hc
      have hs : SplitN ref.APIVersion '/' 2 = [ref.APIVersion] := by simp [SplitN, hc]
      rw [hs] at hg
      subst hg
      exact ⟨rfl, fun h => absurd h hno, fun _ => ⟨rfl, rfl⟩⟩
    | some p =>
      obtain ⟨before, after⟩ := p
      obtain ⟨hsplit, hnot⟩ := cutAt_eq_some '/' _ before after hc
      have hs : SplitN ref.APIVersion '/' 2 = [String.mk before, String.mk after] := by
        simp [SplitN, hc]
      rw [hs] at hg
      subst hg
      refine ⟨rfl, fun _ => ⟨?_, hnot⟩, fun h => absurd (by rw [hsplit]; simp) h⟩
      apply String.ext
      simp [String.data_append, hsplit]
  by_cases hns : ref.Namespace = ""
  · refine ⟨{ cluster := cluster,
              gvr := if (SplitN ref.APIVersion '/' 2).length = 2 then
                  { Group := (SplitN ref.APIVersion '/' 2).getD 0 "",
                    Version := (SplitN ref.APIVersion '/' 2).getD 1 "",
                    Resource := ToLower ref.Kind ++ "s" }
                else { Group := "", Version := ref.APIVersion,
                       Resource := ToLower ref.Kind ++ "s" },
              Namespace := none, name := ref.Name }, ?_, ?_, ?_, rfl, rfl, ?_⟩
    · simp only [getMountObjectFunc, hns, ne_eq, not_true_eq_false, if_false]
    · simp only [getMountObjectFunc, hns, ne_eq, not_true_eq_false, if_false]
    · simp only [getMountObjectFunc, hns, ne_eq, not_true_eq_false, if_false]
    · obtain ⟨h1, h2, h3⟩ := hgvr _ rfl
      exact ⟨h1, h2, h3, fun h => absurd hns h, fun _ => rfl⟩
  · refine ⟨{ cluster := cluster,
              gvr := if (SplitN ref.APIVersion '/' 2).length = 2 then
                  { Group := (SplitN ref.APIVersion '/' 2).getD 0 "",
                    Version := (SplitN ref.APIVersion '/' 2).getD 1 "",
                    Resource := ToLower ref.Kind ++ "s" }
                else { Group := "", Version := ref.APIVersion,
                       Resource := ToLower ref.Kind ++ "s" },
              Namespace := some ref.Namespace, name := ref.Name }, ?_, ?_, ?_, rfl, rfl, ?_⟩
    · simp only [getMountObjectFunc, hns, ne_eq, not_false_eq_true, if_true]
    · simp only [getMountObjectFunc, hns, ne_eq, not_false_eq_true, if_true]
    · simp only [getMountObjectFunc, hns, ne_eq, not_false_eq_true, if_true]
    · obtain ⟨h1, h2, h3⟩ := hgvr _ rfl
      exact ⟨h1, h2, h3, fun _ => rfl, fun h => absurd h hns⟩

/-- C14, evaluated on a namespaced reference with a group and on a cluster-scoped
reference of the core group. -/
theorem getMountObjectFunc_target_witness :
    (getMountObjectFunc demoToLower demoDynamicGet [] "root:org" demoCowboyRef).events =
      [{ cluster := "root:org",
         gvr := { Group := "wildwest.dev", Version := "v1alpha1", Resource := "cowboys" },
         Namespace := some "default", name := "joe" }] ∧
    (getMountObjectFunc demoToLower demoDynamicGet [] "root:org" demoCoreRef).events =
      [{ cluster := "root:org",
         gvr := { Group := "", Version := "v1", Resource := "namespaces" },
         Namespace := none, name := "kube-system" }] ∧
    ∃ call : DynamicGet,
      (getMountObjectFunc demoToLower demoDynamicGet [] "root:org" demoCowboyRef).events =
        [call] ∧
      call.gvr.Group ++ "/" ++ call.gvr.Version = "wildwest.dev/v1alpha1" ∧
      call.Namespace = some "default" :=
  ⟨by decide, by decide,
    (getMountObjectFunc_target demoToLower demoDynamicGet [] "root:org" demoCowboyRef).imp
      fun _ h => ⟨h.1, (h.2.2.2.2.2.2.1 (by decide)).1, h.2.2.2.2.2.2.2.2.1 (by decide)⟩⟩

end Lookup

/-! ## Exclusivity of keys among the workers -/

section Exclusivity

/-- The keys in flight are not changed by `Add`. -/
theorem WorkQueue.Add_inFlight (q : WorkQueue) (k : String) :
    (q.Add k).inFlight = q.inFlight := by
  unfold WorkQueue.Add
  split
  · rfl
  · split <;> rfl

/-- The pending keys after `Add`: unchanged for a key already pending or in flight,
extended by the key otherwise. -/
theorem WorkQueue.Add_pending (q : WorkQueue) (k : String) :
    (q.Add k).pending = if k ∈ q.pending ∨ k ∈ q.inFlight then q.pending else q.pending ++ [k] := by
  unfold WorkQueue.Add
  by_cases h1 : k ∈ q.pending
  · simp [h1]
  · by_cases h2 : k ∈ q.inFlight <;> simp [h1, h2]

/-- Who holds what after the phase of worker `i` has been replaced. -/
theorem WorkerPool.holds_set (q q2 : WorkQueue) (ws : List WorkerPhase) (i j : Nat)
    (ph old : WorkerPhase) (k : String) (hi : ws[i]? = some old) :
    WorkerPool.holds { queue := q2, workers := ws.set i ph } j k ↔
      if j = i then ph.key? = some k else WorkerPool.holds { queue := q, workers := ws } j k := by
  have hlt : i < ws.length := by
    rcases Nat.lt_or_ge i ws.length with h | h
    · exact h
    · rw [List.getElem?_eq_none h] at hi
      exact Option.noConfusion hi
  unfold WorkerPool.holds
  by_cases hji : j = i
  · subst hji
    simp [List.getElem?_set_self hlt]
  · simp [hji, List.getElem?_set_ne (Ne.symm hji)]

/-- The invariant holds when the pool starts. -/
theorem WorkerPool.start_inv (n : Nat) : (WorkerPool.start n).Inv := by
  have hno : ∀ i k, ¬ (WorkerPool.start n).holds i k := by
    intro i k h
    unfold WorkerPool.holds WorkerPool.start at h
    simp only [List.getElem?_replicate] at h
    split at h <;> simp [WorkerPhase.key?] at h
  exact ⟨List.nodup_nil, fun k hk => by simp [WorkerPool.start] at hk,
    fun i k h => absurd h (hno i k), fun i j k h => absurd h (hno i k)⟩

/-- `Add` keeps the invariant. -/
theorem WorkerPool.Inv.add (p : WorkerPool) (h : p.Inv) (k : String) :
    WorkerPool.Inv { p with queue := p.queue.Add k } := by
  refine ⟨?_, ?_, ?_, h.exclusive⟩
  · show (p.queue.Add k).pending.Nodup
    rw [WorkQueue.Add_pending]
    split
    · exact h.pending_nodup
    · rename_i hk
      simp only [not_or] at hk
      exact List.Nodup.append h.pending_nodup (List.nodup_singleton k)
        (fun a ha hb => hk.1 (List.mem_singleton.mp hb ▸ ha))
  · intro k2 hk2
    change k2 ∈ (p.queue.Add k).pending at hk2
    show k2 ∉ (p.queue.Add k).inFlight
    rw [WorkQueue.Add_inFlight]
    rw [WorkQueue.Add_pending] at hk2
    split at hk2
    · exact h.pending_not_inFlight k2 hk2
    · rename_i hk
      simp only [not_or] at hk
      rcases List.mem_append.mp hk2 with h1 | h1
      · exact h.pending_not_inFlight k2 h1
      · rw [List.mem_singleton.mp h1]; exact hk.2
  · intro i k2 hh
    show k2 ∈ (p.queue.Add k).inFlight
    rw [WorkQueue.Add_inFlight]
    exact h.held_inFlight i k2 hh

/-- Every step keeps the invariant. -/
theorem WorkerPool.Inv.step (p p2 : WorkerPool) (h : p.Inv) (a : PoolAction)
    (hs : p.step a = some p2) : p2.Inv := by
  obtain ⟨q, ws⟩ := p
  cases a with
  | add k =>
    simp only [WorkerPool.step, Option.some.injEq] at hs
    subst hs
    exact WorkerPool.Inv.add _ h k
  | get i =>
    simp only [WorkerPool.step] at hs
    split at hs
    · rename_i hi
      split at hs
      · rename_i k q2 hget
        simp only [Option.some.injEq] at hs
        subst hs
        unfold WorkQueue.Get at hget
        split at hget
        · exact Option.noConfusion hget
        · rename_i k0 rest hpend
          simp only [Option.some.injEq, Prod.mk.injEq] at hget
          obtain ⟨rfl, rfl⟩ := hget
          have hnd : (k0 :: rest).Nodup := by
            have := h.pending_nodup
            simpa [hpend] using this
          have hk0 : k0 ∉ q.inFlight :=
            h.pending_not_inFlight k0 (by simp [hpend])
          refine ⟨?_, ?_, ?_, ?_⟩
          · exact (List.nodup_cons.mp hnd).2
          · intro k2 hk2
            simp only [List.mem_cons, not_or]
            refine ⟨?_, h.pending_not_inFlight k2 (by simp [hpend, hk2])⟩
            rintro rfl
            exact (List.nodup_cons.mp hnd).1 hk2
          · intro j k2 hh
            rw [WorkerPool.holds_set q _ ws i j _ _ k2 hi] at hh
            split at hh
            · simp only [WorkerPhase.key?, Option.some.injEq] at hh
              simp [hh]
            · exact List.mem_cons_of_mem _ (h.held_inFlight j k2 hh)
          · intro j1 j2 k2 h1 h2
            rw [WorkerPool.holds_set q _ ws i j1 _ _ k2 hi] at h1
            rw [WorkerPool.holds_set q _ ws i j2 _ _ k2 hi] at h2
            by_cases e1 : j1 = i <;> by_cases e2 : j2 = i
            · rw [e1, e2]
            · simp only [e1, e2, if_true, if_false, WorkerPhase.key?, Option.some.injEq] at h1 h2
              subst h1
              exact absurd (h.held_inFlight j2 _ h2) hk0
            · simp only [e1, e2, if_true, if_false, WorkerPhase.key?, Option.some.injEq] at h1 h2
              subst h2
              exact absurd (h.held_inFlight j1 _ h1) hk0
            · simp only [e1, e2, if_false] at h1 h2
              exact h.exclusive j1 j2 k2 h1 h2
      · exact Option.noConfusion hs
    · exact Option.noConfusion hs
  | settle i call =>
    simp only [WorkerPool.step] at hs
    split at hs
    · rename_i k hi
      simp only [Option.some.injEq] at hs
      subst hs
      have hsame : ∀ q2 j k2,
          WorkerPool.holds { queue := q2, workers := ws.set i (WorkerPhase.settled k) } j k2 ↔
            WorkerPool.holds { queue := q, workers := ws } j k2 := by
        intro q2 j k2
        rw [WorkerPool.holds_set q q2 ws i j _ _ k2 hi]
        by_cases e : j = i
        · subst e
          simp [WorkerPool.holds, hi, WorkerPhase.key?]
        · simp [e]
      have hq : ∀ q2 : WorkQueue, WorkerPool.Inv { queue := q2, workers := ws } →
          WorkerPool.Inv { queue := q2, workers := ws.set i (WorkerPhase.settled k) } := by
        intro q2 hinv
        refine ⟨hinv.pending_nodup, hinv.pending_not_inFlight, ?_, ?_⟩
        · intro j k2 hh
          exact hinv.held_inFlight j k2 ((hsame q2 j k2).mp hh)
        · intro j1 j2 k2 h1 h2
          have a1 := (hsame q2 j1 k2).mp h1
          have a2 := (hsame q2 j2 k2).mp h2
          exact hinv.exclusive j1 j2 k2 a1 a2
      cases call
      · exact hq _ (WorkerPool.Inv.add _ h k)
      · exact hq _ h
      · exact hq _ h
    · exact Option.noConfusion hs
  | done i =>
    simp only [WorkerPool.step] at hs
    split at hs
    · rename_i k hi
      simp only [Option.some.injEq] at hs
      subst hs
      have hik : WorkerPool.holds { queue := q, workers := ws } i k := by
        simp [WorkerPool.holds, hi, WorkerPhase.key?]
      have hkin : k ∈ q.inFlight := h.held_inFlight i k hik
      have hkp : k ∉ q.pending := fun hp => h.pending_not_inFlight k hp hkin
      have hpend : (q.Done k).pending = q.pending ∨ (q.Done k).pending = q.pending ++ [k] := by
        unfold WorkQueue.Done
        split
        · exact Or.inr rfl
        · exact Or.inl rfl
      have hfl : (q.Done k).inFlight = q.inFlight.filter (fun x => x != k) := by
        unfold WorkQueue.Done
        split <;> rfl
      refine ⟨?_, ?_, ?_, ?_⟩
      · show (q.Done k).pending.Nodup
        rcases hpend with e | e <;> rw [e]
        · exact h.pending_nodup
        · exact List.Nodup.append h.pending_nodup (List.nodup_singleton k)
            (fun a ha hb => hkp (List.mem_singleton.mp hb ▸ ha))
      · intro k2 hk2
        change k2 ∈ (q.Done k).pending at hk2
        show k2 ∉ (q.Done k).inFlight
        rw [hfl]
        simp only [List.mem_filter, bne_iff_ne, ne_eq, not_and, not_not]
        intro hin
        rcases hpend with e | e <;> rw [e] at hk2
        · exact absurd hin (h.pending_not_inFlight k2 hk2)
        · rcases List.mem_append.mp hk2 with h1 | h1
          · exact absurd hin (h.pending_not_inFlight k2 h1)
          · exact List.mem_singleton.mp h1
      · intro j k2 hh
        rw [WorkerPool.holds_set q _ ws i j _ _ k2 hi] at hh
        show k2 ∈ (q.Done k).inFlight
        rw [hfl]
        split at hh
        · simp [WorkerPhase.key?] at hh
        · rename_i hji
          simp only [List.mem_filter, bne_iff_ne, ne_eq]
          refine ⟨h.held_inFlight j k2 hh, ?_⟩
          rintro rfl
          exact hji (h.exclusive j i k2 hh hik)
      · intro j1 j2 k2 h1 h2
        rw [WorkerPool.holds_set q _ ws i j1 _ _ k2 hi] at h1
        rw [WorkerPool.holds_set q _ ws i j2 _ _ k2 hi] at h2
        split at h1
        · simp [WorkerPhase.key?] at h1
        · split at h2
          · simp [WorkerPhase.key?] at h2
          · exact h.exclusive j1 j2 k2 h1 h2
    · exact Option.noConfusion hs

/-- Every state reached from a state with the invariant has the invariant. -/
theorem WorkerPool.Inv.run (acts : List PoolAction) (p p2 : WorkerPool) (h : p.Inv)
    (hr : p.run acts = some p2) : p2.Inv := by
  induction acts generalizing p with
  | nil =>
    simp only [WorkerPool.run, Option.some.injEq] at hr
    exact hr ▸ h
  | cons a rest ih =>
    simp only [WorkerPool.run] at hr
    split at hr
    · rename_i p1 hstep
      exact ih p1 (WorkerPool.Inv.step p p1 h a hstep) hr
    · exact Option.noConfusion hr

/-- A worker keeps its key through every step that is not its own `Done`. -/
theorem WorkerPool.holds_step (p p2 : WorkerPool) (i : Nat) (k : String) (a : PoolAction)
    (hh : p.holds i k) (hs : p.step a = some p2) (ha : a ≠ PoolAction.done i) :
    p2.holds i k := by
  obtain ⟨q, ws⟩ := p
  cases a with
  | add k2 =>
    simp only [WorkerPool.step, Option.some.injEq] at hs
    subst hs
    exact hh
  | get j =>
    simp only [WorkerPool.step] at hs
    split at hs
    · rename_i hj
      split at hs
      · simp only [Option.some.injEq] at hs
        subst hs
        rw [WorkerPool.holds_set q _ ws j i _ _ k hj]
        split
        · rename_i e
          subst e
          simp [WorkerPool.holds, hj, WorkerPhase.key?] at hh
        · exact hh
      · exact Option.noConfusion hs
    · exact Option.noConfusion hs
  | settle j call =>
    simp only [WorkerPool.step] at hs
    split at hs
    · rename_i k2 hj
      simp only [Option.some.injEq] at hs
      subst hs
      rw [WorkerPool.holds_set q _ ws j i _ _ k hj]
      split
      · rename_i e
        subst e
        simpa [WorkerPool.holds, hj, WorkerPhase.key?] using hh
      · exact hh
    · exact Option.noConfusion hs
  | done j =>
    simp only [WorkerPool.step] at hs
    split at hs
    · rename_i k2 hj
      simp only [Option.some.injEq] at hs
      subst hs
      rw [WorkerPool.holds_set q _ ws j i _ _ k hj]
      split
      · rename_i e
        subst e
        exact absurd rfl ha
      · exact hh
    · exact Option.noConfusion hs

/-- A key that `Get` returns is a pending key. -/
theorem WorkQueue.Get_mem_pending (q q2 : WorkQueue) (k : String)
    (h : q.Get = some (k, q2)) : k ∈ q.pending := by
  unfold WorkQueue.Get at h
  split at h
  · exact Option.noConfusion h
  · rename_i k0 rest hp
    simp only [Option.some.injEq, Prod.mk.injEq] at h
    rw [hp, ← h.1]
    exact List.mem_cons_self _ _

/-- The queue calls of one run of `processNextWorkItem`: `Get` alone when the queue has
shut down, and otherwise `Get`, one of `Add`, `AddRateLimited`, `Forget` on the key that
`Get` returned, and `Done` on that key. -/
theorem processNextWorkItem_queue_protocol (c : Controller M S T E W U G) (w : W) :
    (∃ k w1, c.queueGet w = ((k, true), w1) ∧
        queueOps (processNextWorkItem c w).events = [Event.queueGet]) ∨
      ∃ key w1, c.queueGet w = ((key, false), w1) ∧
        (queueOps (processNextWorkItem c w).events =
            [Event.queueGet, Event.queueAdd key, Event.queueDone key] ∨
          queueOps (processNextWorkItem c w).events =
            [Event.queueGet, Event.queueAddRateLimited key, Event.queueDone key] ∨
          queueOps (processNextWorkItem c w).events =
            [Event.queueGet, Event.queueForget key, Event.queueDone key]) := by
  rcases hget : c.queueGet w with ⟨⟨k, quit⟩, w1⟩
  cases quit
  · refine Or.inr ⟨k, w1, rfl, ?_⟩
    rcases hret : (process c k w1).ret with ⟨rq, _ | err⟩
    · cases rq
      · obtain ⟨_, _, hev⟩ := processNextWorkItem_of_success c w w1 k hget hret
        exact Or.inr (Or.inr (by rw [hev, queueOps_pass]; rfl))
      · obtain ⟨_, _, hev⟩ := processNextWorkItem_of_requeue c w w1 k hget hret
        exact Or.inl (by rw [hev, queueOps_pass]; rfl)
    · obtain ⟨_, _, hev⟩ := processNextWorkItem_of_error c w w1 k rq err hget hret
      exact Or.inr (Or.inl (by rw [hev, queueOps_pass]; rfl))
  · refine Or.inl ⟨k, w1, rfl, ?_⟩
    rw [(processNextWorkItem_quit c w w1 k hget).2.2]
    rfl

/-- C12: a worker running `processNextWorkItem` calls `Get`, then one of `Add`,
`AddRateLimited`, `Forget` on the key it got, then `Done` on that key. With any number of
such workers on the shared queue and any interleaving of their queue calls with `Add`s
from elsewhere, in every state reached: no two workers hold the same key; `Get` never
returns a key that a worker holds; a worker keeps its key, and `Get` keeps not returning
it, through every step other than that worker's `Done`; and an `Add` of a held key leaves
the pending and in-flight keys as they are, marks the key dirty, and the `Done` that
follows re-queues the key and takes it out of flight. -/
theorem workers_hold_distinct_keys (c : Controller M S T E W U G) (w : W) (numThreads : Nat)
    (acts : List PoolAction) (p : WorkerPool)
    (hrun : (WorkerPool.start numThreads).run acts = some p) :
    ((∃ k w1, c.queueGet w = ((k, true), w1) ∧
          queueOps (processNextWorkItem c w).events = [Event.queueGet]) ∨
        ∃ key w1, c.queueGet w = ((key, false), w1) ∧
          (queueOps (processNextWorkItem c w).events =
              [Event.queueGet, Event.queueAdd key, Event.queueDone key] ∨
            queueOps (processNextWorkItem c w).events =
              [Event.queueGet, Event.queueAddRateLimited key, Event.queueDone key] ∨
            queueOps (processNextWorkItem c w).events =
              [Event.queueGet, Event.queueForget key, Event.queueDone key])) ∧
      (∀ i j k, p.holds i k → p.holds j k → i = j) ∧
      (∀ k q, p.queue.Get = some (k, q) → ∀ i, ¬ p.holds i k) ∧
      (∀ i k a p2, p.holds i k → p.step a = some p2 → a ≠ PoolAction.done i →
        p2.holds i k ∧ ∀ k2 q, p2.queue.Get = some (k2, q) → k2 ≠ k) ∧
      (∀ i k, p.holds i k →
        (p.queue.Add k).pending = p.queue.pending ∧
        (p.queue.Add k).inFlight = p.queue.inFlight ∧
        k ∈ (p.queue.Add k).dirty ∧
        ((p.queue.Add k).Done k).pending = p.queue.pending ++ [k] ∧
        k ∉ ((p.queue.Add k).Done k).inFlight) := by
  have hinv : p.Inv := WorkerPool.Inv.run acts _ p (WorkerPool.start_inv numThreads) hrun
  have hget : ∀ (p1 : WorkerPool), p1.Inv → ∀ k q, p1.queue.Get = some (k, q) →
      ∀ i, ¬ p1.holds i k := by
    intro p1 h1 k q hg i hh
    exact h1.pending_not_inFlight k (WorkQueue.Get_mem_pending _ _ _ hg)
      (h1.held_inFlight i k hh)
  refine ⟨processNextWorkItem_queue_protocol c w, hinv.exclusive, hget p hinv, ?_, ?_⟩
  · intro i k a p2 hh hs ha
    have hh2 := WorkerPool.holds_step p p2 i k a hh hs ha
    refine ⟨hh2, ?_⟩
    rintro k2 q hg rfl
    exact hget p2 (WorkerPool.Inv.step p p2 hinv a hs) k2 q hg i hh2
  · intro i k hh
    have hin : k ∈ p.queue.inFlight := hinv.held_inFlight i k hh
    have hnp : k ∉ p.queue.pending := fun hp => hinv.pending_not_inFlight k hp hin
    have hd : k ∈ (p.queue.Add k).dirty := by
      unfold WorkQueue.Add
      simp only [hnp, hin, if_true, if_false]
      split
      · assumption
      · exact List.mem_cons_self _ _
    have hp : (p.queue.Add k).pending = p.queue.pending := by
      rw [WorkQueue.Add_pending]; simp [hin]
    refine ⟨hp, WorkQueue.Add_inFlight _ _, hd, ?_, ?_⟩
    · unfold WorkQueue.Done
      simp only [hd, if_true, hp]
    · unfold WorkQueue.Done
      simp only [hd, if_true]
      simp

/-- C12, evaluated on two workers after `demoSchedule`: worker 0 holds `root|ws`, worker 1
does not, and the updates that arrived meanwhile are delivered once, after `Done`. -/
theorem workers_hold_distinct_keys_witness :
    (WorkerPool.start 2).run demoSchedule = some demoPool ∧
    demoPool.holds 0 "root|ws" ∧ ¬ demoPool.holds 1 "root|ws" ∧
    ((demoPool.queue.Add "root|ws").Done "root|ws").pending = ["root|ws"] :=
  have h := workers_hold_distinct_keys demoSuccessController [] 2 demoSchedule demoPool
    (by decide)
  ⟨by decide, by decide,
    fun h1 => absurd (h.2.1 1 0 "root|ws" h1 (by decide)) (by decide),
    (h.2.2.2.2 0 "root|ws" (by decide)).2.2.2.1⟩

end Exclusivity

end WorkspaceMounts

namespace V1alpha1

/-- C13: each of `WithAPIVersion`, `WithKind`, `WithName` and `WithNamespace` returns its
receiver, sets its own field of the receiver to the given value and leaves the other three
fields, and every other configuration, as they were; calling it with `v1` and then with
`v2` gives the same result as calling it once with `v2`; and `ObjectReference()` returns a
configuration whose four fields are unset. -/
theorem with_sets_own_field (h : Heap) (b fresh : Ptr) (v1 v2 : String) :
    ((WithAPIVersion h b v1).1 = b ∧
        (WithAPIVersion h b v1).2 b = { h b with APIVersion := some v1 } ∧
        ((WithAPIVersion h b v1).2 b).Kind = (h b).Kind ∧
        ((WithAPIVersion h b v1).2 b).Name = (h b).Name ∧
        ((WithAPIVersion h b v1).2 b).Namespace = (h b).Namespace ∧
        (∀ p, p ≠ b → (WithAPIVersion h b v1).2 p = h p) ∧
        WithAPIVersion (WithAPIVersion h b v1).2 (WithAPIVersion h b v1).1 v2 =
          WithAPIVersion h b v2) ∧
      ((WithKind h b v1).1 = b ∧
        (WithKind h b v1).2 b = { h b with Kind := some v1 } ∧
        ((WithKind h b v1).2 b).APIVersion = (h b).APIVersion ∧
        ((WithKind h b v1).2 b).Name = (h b).Name ∧
        ((WithKind h b v1).2 b).Namespace = (h b).Namespace ∧
        (∀ p, p ≠ b → (WithKind h b v1).2 p = h p) ∧
        WithKind (WithKind h b v1).2 (WithKind h b v1).1 v2 = WithKind h b v2) ∧
      ((WithName h b v1).1 = b ∧
        (WithName h b v1).2 b = { h b with Name := some v1 } ∧
        ((WithName h b v1).2 b).APIVersion = (h b).APIVersion ∧
        ((WithName h b v1).2 b).Kind = (h b).Kind ∧
        ((WithName h b v1).2 b).Namespace = (h b).Namespace ∧
        (∀ p, p ≠ b → (WithName h b v1).2 p = h p) ∧
        WithName (WithName h b v1).2 (WithName h b v1).1 v2 = WithName h b v2) ∧
      ((WithNamespace h b v1).1 = b ∧
        (WithNamespace h b v1).2 b = { h b with Namespace := some v1 } ∧
        ((WithNamespace h b v1).2 b).APIVersion = (h b).APIVersion ∧
        ((WithNamespace h b v1).2 b).Kind = (h b).Kind ∧
        ((WithNamespace h b v1).2 b).Name = (h b).Name ∧
        (∀ p, p ≠ b → (WithNamespace h b v1).2 p = h p) ∧
        WithNamespace (WithNamespace h b v1).2 (WithNamespace h b v1).1 v2 =
          WithNamespace h b v2) ∧
      (ObjectReference h fresh).2 (ObjectReference h fresh).1 =
        { APIVersion := none, Kind := none, Name := none, Namespace := none } := by
  refine ⟨⟨rfl, ?_, ?_, ?_, ?_, ?_, ?_⟩, ⟨rfl, ?_, ?_, ?_, ?_, ?_, ?_⟩,
    ⟨rfl, ?_, ?_, ?_, ?_, ?_, ?_⟩, ⟨rfl, ?_, ?_, ?_, ?_, ?_, ?_⟩, ?_⟩
  all_goals
    first
    | (intro p hp
       simp [WithAPIVersion, WithKind, WithName, WithNamespace, Function.update_noteq hp])
    | simp [WithAPIVersion, WithKind, WithName, WithNamespace, ObjectReference]

/-- C13, evaluated on a chain of calls: the last value given for a field wins, a
configuration behind another pointer is untouched, and the field holds the value set. -/
theorem with_sets_own_field_witness :
    WithKind (WithKind demoHeap 3 "Sheriff").2 (WithKind demoHeap 3 "Sheriff").1 "Outlaw" =
      WithKind demoHeap 3 "Outlaw" ∧
    (WithKind demoHeap 3 "Sheriff").2 4 = demoHeap 4 ∧
    (WithKind demoHeap 3 "Sheriff").2 3 =
      { APIVersion := some "wildwest.dev/v1alpha1", Kind := some "Sheriff", Name := some "joe",
        Namespace := none } :=
  have h := with_sets_own_field demoHeap 3 0 "Sheriff" "Outlaw"
  ⟨h.2.1.2.2.2.2.2.2, h.2.1.2.2.2.2.2.1 4 (by decide), h.2.1.2.1⟩

end V1alpha1
